import Mathlib

/-!
Verification of the hr-crawler-backend job pipeline: a shallow embedding of
the persistence gate (`saveJobs`), the per-source page extractors, the
relative-date normalization embedded in them, and the HTTP route handlers of
`src/server.js` (which holds two concatenated server variants) together with
the schema of `src/unnamed/part_000`.

Modelling conventions:
  * The PostgreSQL `jobs` table is a `List JobRow`; the UNIQUE constraint on
    `link` together with `ON CONFLICT (link) DO NOTHING` becomes an insert
    that is a no-op when the link is already present.
  * Each individual `INSERT` issued inside `saveJobs` can also fail for a
    non-conflict reason (the promise rejects); that possibility is an oracle
    `fails : List Bool` aligned with the batch.  A hard transaction error
    (connection loss at BEGIN/COMMIT) is a Boolean `hardError` flag: the
    code path `catch { ROLLBACK; return {0,0} }`.
  * JavaScript `Date` values are minutes since the Unix epoch (UTC), `Int`.
    `toISOString()` at full precision is `DateVal.instant`,
    `toISOString().split('T')[0]` is `DateVal.dateOnly` (days since epoch),
    and text passed through unparsed is `DateVal.raw`.
  * JS string operations (`toLowerCase`, `trim`, `includes`, `parseInt`,
    the regex matches of the crawlers) are modelled character-exactly over
    `List Char` for the ASCII range the scraped text lives in.
  * SQL `ILIKE '%q%'` is a case-insensitive substring test; `ORDER BY
    posted_date DESC` over the TEXT column is byte-lexicographic descending
    order (`strLe`), as the spec's "string-lexicographic" caveat records.
-/

namespace HrCrawler

/-! ## JS string primitives (ASCII model) -/

/-- ASCII lower-casing of one character, the fragment of
`String.prototype.toLowerCase` exercised by the scraped text. -/
def lowerChar (c : Char) : Char :=
  if 64 < c.toNat ∧ c.toNat < 91 then Char.ofNat (c.toNat + 32) else c

/-- JS `s.toLowerCase()`. -/
def lowerStr (s : String) : String := String.mk (s.data.map lowerChar)

/-- Whitespace as JS `trim` and `\s` see it on this data. -/
def isWsCh (c : Char) : Bool :=
  c.toNat = 32 || c.toNat = 9 || c.toNat = 10 || c.toNat = 13

/-- Digit characters, JS `\d` / `parseInt` digits. -/
def isDigitCh (c : Char) : Bool := 47 < c.toNat && c.toNat < 58

/-- JS `s.trim()`. -/
def trimStr (s : String) : String :=
  String.mk (((s.data.dropWhile isWsCh).reverse.dropWhile isWsCh).reverse)

/-- Whether `pat` is an initial segment of `cs`. -/
def isPre : List Char → List Char → Bool
  | [], _ => true
  | _ :: _, [] => false
  | p :: ps, c :: cs => p = c && isPre ps cs

/-- Whether `pat` occurs as a contiguous segment of `cs` (JS `includes`). -/
def hasSub : List Char → List Char → Bool
  | cs, pat =>
    match cs with
    | [] => pat.isEmpty
    | _ :: rest => isPre pat cs || hasSub rest pat

/-- JS `hay.includes(needle)`. -/
def includesStr (hay needle : String) : Bool := hasSub hay.data needle.data

/-- Case-insensitive substring test: the meaning of SQL `ILIKE '%needle%'`. -/
def containsCI (hay needle : String) : Bool :=
  includesStr (lowerStr hay) (lowerStr needle)

/-- Numeric value of a digit list (most significant first). -/
def digitsToNat (ds : List Char) : Nat :=
  ds.foldl (fun a c => a * 10 + (c.toNat - 48)) 0

/-- Leading digit run of `cs` as a number, `none` when `cs` opens with a
non-digit. -/
def leadNat (cs : List Char) : Option Nat :=
  let ds := cs.takeWhile isDigitCh
  if ds.isEmpty then none else some (digitsToNat ds)

/-- JS `parseInt(s)`: skip leading whitespace, optional sign, then the
maximal digit run; `none` is `NaN`. -/
def parseIntJS (s : String) : Option Int :=
  let cs := s.data.dropWhile isWsCh
  if cs.head? = some '-' then (leadNat cs.tail).map (fun n => -(n : Int))
  else if cs.head? = some '+' then (leadNat cs.tail).map (fun n => (n : Int))
  else (leadNat cs).map (fun n => (n : Int))

/-- Fuel-driven worker for `removeToks`: each step consumes at least one
character, so fuel equal to the list's length never runs out. -/
def removeToksAux (toks : List (List Char)) : Nat → List Char → List Char
  | 0, cs => cs
  | _ + 1, [] => []
  | fuel + 1, c :: cs =>
    match toks.find? (fun t => !t.isEmpty && isPre t (c :: cs)) with
    | some t => removeToksAux toks fuel ((c :: cs).drop t.length)
    | none => c :: removeToksAux toks fuel cs

/-- JS global `replace` of an alternation of literal tokens by the empty
string: at each position the first token of `toks` that matches is removed. -/
def removeToks (toks : List (List Char)) (cs : List Char) : List Char :=
  removeToksAux toks cs.length cs

/-- First occurrence, scanning left to right, of a digit run followed by
whitespace followed by the literal `unit`: the JS regex
`/(\d+)\s+unit/` with the captured number. -/
def scanNumUnit (unit : List Char) : List Char → Option Nat
  | [] => none
  | c :: cs =>
    let ds := (c :: cs).takeWhile isDigitCh
    if ds.isEmpty then scanNumUnit unit cs
    else
      let after := (c :: cs).drop ds.length
      let ws := after.takeWhile isWsCh
      if !ws.isEmpty && isPre unit (after.drop ws.length) then
        some (digitsToNat ds)
      else scanNumUnit unit cs

/-- JS `s.match(/(\d+)\s+unit/)`, returning the captured amount. -/
def findNumUnit (s : String) (unit : String) : Option Nat :=
  scanNumUnit unit.data s.data

/-- Byte-lexicographic `a <= b` on strings: the order the TEXT column's
`>=` / `ORDER BY ... DESC` comparisons use. -/
def leChars : List Char → List Char → Bool
  | [], _ => true
  | _ :: _, [] => false
  | a :: as, b :: bs =>
    if a.toNat < b.toNat then true
    else if b.toNat < a.toNat then false
    else leChars as bs

/-- String order used for `posted_date` comparisons. -/
def strLe (a b : String) : Bool := leChars a.data b.data

/-- JS `v || d` on an optional string: `undefined`/`null` and the empty
string are falsy. -/
def jsOrStr (v : Option String) (d : String) : String :=
  match v with
  | none => d
  | some s => if s = "" then d else s

/-- JS truthiness test `!v` for an optional string field. -/
def isFalsy (v : Option String) : Bool :=
  match v with
  | none => true
  | some s => s = ""

/-- An optional query value as the route's `if (x)` guard sees it: dropped
when absent or empty. -/
def filterActive (v : Option String) : Option String :=
  match v with
  | none => none
  | some s => if s = "" then none else some s

/-! ## JS Date model

An instant is minutes since the Unix epoch (UTC), an `Int`; a calendar day is
days since the epoch.  `setHours`/`setDate` subtraction is exact duration
arithmetic; `setMonth` keeps the day-of-month and time and lets an invalid
day overflow into the following month, which the civil-calendar conversion
below reproduces. -/

/-- Day (days since epoch) holding minute-instant `t`. -/
def dayOf (t : Int) : Int := t / 1440

/-- Civil date (year, month 1-12, day 1-31) of a days-since-epoch count. -/
def civilFromDays (z0 : Int) : Int × Int × Int :=
  let z := z0 + 719468
  let era := z / 146097
  let doe := z - era * 146097
  let yoe := (doe - doe / 1460 + doe / 36524 - doe / 146096) / 365
  let y := yoe + era * 400
  let doy := doe - (365 * yoe + yoe / 4 - yoe / 100)
  let mp := (5 * doy + 2) / 153
  let d := doy - (153 * mp + 2) / 5 + 1
  let m := mp + (if mp < 10 then 3 else -9)
  (if m ≤ 2 then y + 1 else y, m, d)

/-- Days since epoch of the first day of civil month (y, m 1-12). -/
def daysFromCivilFirst (y0 m : Int) : Int :=
  let y := if m ≤ 2 then y0 - 1 else y0
  let era := y / 400
  let yoe := y - era * 400
  let mp := if 2 < m then m - 3 else m + 9
  let doy := (153 * mp + 2) / 5
  let doe := yoe * 365 + yoe / 4 - yoe / 100 + doy
  era * 146097 + doe - 719468

/-- JS `d.setMonth(d.getMonth() - n)` on the instant `t`: month index moves
back `n`, day-of-month and time are kept, day overflow rolls into the next
month. -/
def jsSubMonths (t : Int) (n : Int) : Int :=
  let day := t / 1440
  let tod := t % 1440
  let c := civilFromDays day
  let mi := c.1 * 12 + (c.2.1 - 1) - n
  let y := mi / 12
  let m := mi % 12 + 1
  (daysFromCivilFirst y m + (c.2.2 - 1)) * 1440 + tod

/-- A normalized posted-date value: a full ISO instant, a date-only ISO
string, or text passed through unparsed. -/
inductive DateVal where
  | instant (t : Int)
  | dateOnly (d : Int)
  | raw (s : String)
  deriving DecidableEq, Repr

/-! ## Relative-date normalization (from the extractors)

`normalizeLinkedInDate` is the body of the `if (dateElement)` block of
`extractLinkedInJobs` (server.js lines 255-286); `normalizeShineDate` is the
corresponding block of `extractShineJobs` (lines 512-534). -/

/-- The LinkedIn extractor's conversion of the `time` element's text. -/
def normalizeLinkedInDate (now : Int) (txt : String) : DateVal :=
  let pd := lowerStr (trimStr txt)
  let num : Int :=
    match parseIntJS pd with
    | some n => if n = 0 then 1 else n
    | none => 1
  if includesStr pd "hour" then .instant (now - num * 60)
  else if includesStr pd "day" then .dateOnly (dayOf (now - num * 1440))
  else if includesStr pd "week" then .dateOnly (dayOf (now - num * 7 * 1440))
  else if includesStr pd "month" then .dateOnly (dayOf (jsSubMonths now num))
  else if includesStr pd "minute" then .instant (now - num)
  else .raw (trimStr txt)

/-- Tokens the Shine extractor strips from the posted-date text:
`replace(/posted|Posted|ago|\n/g, '')`. -/
def shineStripToks : List (List Char) :=
  [String.data "posted", String.data "Posted", String.data "ago", String.data "\n"]

/-- The Shine extractor's conversion of the posted-data span's text.  Note:
an hour or minute match yields today's DATE with no subtraction, and there
is no month unit. -/
def normalizeShineDate (now : Int) (txt : String) : DateVal :=
  let pd := trimStr (String.mk (removeToks shineStripToks (trimStr txt).data))
  match findNumUnit pd "day" with
  | some n => .dateOnly (dayOf (now - (n : Int) * 1440))
  | none =>
    match findNumUnit pd "week" with
    | some n => .dateOnly (dayOf (now - (n : Int) * 7 * 1440))
    | none =>
      if (findNumUnit pd "hour").isSome || (findNumUnit pd "minute").isSome then
        .dateOnly (dayOf now)
      else .raw pd

/-! ## Site extractors (page-evaluation stage)

A DOM node is modelled by the sub-field lookups the extractor performs on
it: each `querySelector(...)?.textContent` is an `Option String` (`none`
when the element is missing or its text is null), plus a `throws` flag
meaning that reading this node raises.  `extractLinkedInJobs` wraps each
node in `try { ... } catch { return null }` and ends with
`.filter(Boolean)` (server.js lines 243-304); the Naukri `extractJobs`
closure (lines 341-369) has no per-node catch, so a throwing node aborts
the whole `page.evaluate`.  `extractShineJobs` (lines 489-552) has the same
catch-and-filter shape as LinkedIn. -/

/-- A rendered LinkedIn result-list node as `extractLinkedInJobs` reads it. -/
structure LINode where
  throws : Bool
  titleText : Option String
  linkHref : Option String
  companyText : Option String
  locationText : Option String
  timeText : Option String
  deriving DecidableEq, Repr

/-- The record `extractLinkedInJobs` builds per node. -/
structure LIRecord where
  title : String
  company : String
  experience : String
  location : String
  skills : List String
  salary : String
  link : String
  source : String
  postedDate : DateVal
  scrapedAt : Int
  deriving DecidableEq, Repr

/-- Extraction of one non-throwing LinkedIn node. -/
def extractLINode (now : Int) (n : LINode) : LIRecord :=
  { title := jsOrStr (n.titleText.map trimStr) "N/A"
    company := jsOrStr (n.companyText.map trimStr) "N/A"
    experience := "N/A"
    location := jsOrStr (n.locationText.map trimStr) "N/A"
    skills := []
    salary := "Not specified"
    link := jsOrStr n.linkHref "#"
    source := "LinkedIn"
    postedDate :=
      match n.timeText with
      | none => .raw "N/A"
      | some t => normalizeLinkedInDate now t
    scrapedAt := now }

/-- `extractLinkedInJobs`: per-node try/catch returning null on a throw,
then `.filter(Boolean)`. -/
def extractLinkedInJobs (now : Int) : List LINode → List LIRecord
  | [] => []
  | n :: rest =>
    if n.throws then extractLinkedInJobs now rest
    else extractLINode now n :: extractLinkedInJobs now rest

/-- A rendered Naukri job-tuple node as the `extractJobs` closure of
`crawlNaukri` reads it. -/
structure NaukriNode where
  throws : Bool
  titleText : Option String
  companyText : Option String
  expText : Option String
  locText : Option String
  skillTexts : List String
  titleHref : Option String
  postDayText : Option String
  deriving DecidableEq, Repr

/-- The record the Naukri `extractJobs` closure builds per node (salary and
source are added later, outside the page evaluation). -/
structure NaukriRecord where
  title : String
  company : String
  experience : String
  location : String
  skills : List String
  link : String
  postedDate : String
  deriving DecidableEq, Repr

/-- Tokens stripped from the Naukri posted-date text:
`replace(/Posted|ago|\n/g, '')`. -/
def naukriStripToks : List (List Char) :=
  [String.data "Posted", String.data "ago", String.data "\n"]

/-- Extraction of one non-throwing Naukri node. -/
def extractNaukriNode (n : NaukriNode) : NaukriRecord :=
  { title := jsOrStr (n.titleText.map trimStr) "N/A"
    company := jsOrStr (n.companyText.map trimStr) "N/A"
    experience := jsOrStr (n.expText.map trimStr) "N/A"
    location := jsOrStr (n.locText.map trimStr) "N/A"
    skills := n.skillTexts.map trimStr
    link := jsOrStr n.titleHref "#"
    postedDate :=
      match n.postDayText with
      | none => "N/A"
      | some t => trimStr (String.mk (removeToks naukriStripToks (trimStr t).data)) }

/-- The Naukri `extractJobs` page evaluation: a plain `map` with no
per-node catch, so one throwing node makes the whole evaluation reject. -/
def naukriExtractJobs : List NaukriNode → Except Unit (List NaukriRecord)
  | [] => .ok []
  | n :: rest =>
    if n.throws then .error ()
    else
      match naukriExtractJobs rest with
      | .ok rs => .ok (extractNaukriNode n :: rs)
      | .error e => .error e

/-- A rendered Shine job-card node as `extractShineJobs` reads it. -/
structure ShineNode where
  throws : Bool
  titleText : Option String
  titleHref : Option String
  companyText : Option String
  detailSpanTexts : List (Option String)
  postedText : Option String
  deriving DecidableEq, Repr

/-- The record `extractShineJobs` builds per node (it sets no skills
field). -/
structure ShineRecord where
  title : String
  company : String
  experience : String
  location : String
  salary : String
  link : String
  source : String
  postedDate : DateVal
  scrapedAt : Int
  deriving DecidableEq, Repr

/-- Extraction of one non-throwing Shine node. -/
def extractShineNode (now : Int) (n : ShineNode) : ShineRecord :=
  let spans := n.detailSpanTexts
  { title := jsOrStr (n.titleText.map trimStr) "N/A"
    company := jsOrStr (n.companyText.map trimStr) "N/A"
    experience :=
      if 3 ≤ spans.length then jsOrStr ((spans.getD 0 none).map trimStr) "N/A"
      else "N/A"
    location :=
      if 3 ≤ spans.length then jsOrStr ((spans.getD 1 none).map trimStr) "N/A"
      else "N/A"
    salary :=
      if 3 ≤ spans.length then
        jsOrStr ((spans.getD 2 none).map trimStr) "Not specified"
      else "Not specified"
    link := jsOrStr n.titleHref "#"
    source := "Shine"
    postedDate :=
      match n.postedText with
      | none => .raw "N/A"
      | some t => normalizeShineDate now t
    scrapedAt := now }

/-- `extractShineJobs`: per-node try/catch returning null on a throw, then
`.filter(Boolean)`. -/
def extractShineJobs (now : Int) : List ShineNode → List ShineRecord
  | [] => []
  | n :: rest =>
    if n.throws then extractShineJobs now rest
    else extractShineNode now n :: extractShineJobs now rest

/-! ## Normalization and dedup gate (`saveJobs`, server.js lines 84-125)

`saveJobs` issues one `INSERT ... ON CONFLICT (link) DO NOTHING` per record
inside one transaction on a single client (queries on one pg client are
queued in order), gathers them with `Promise.allSettled`, counts the
fulfilled results whose `rowCount` is 1 as `newJobs`, and reports
`duplicates = jobs.length - newJobs`.  A rejected individual insert is
swallowed by `allSettled`; only a transaction-level error reaches the
`catch` that rolls back and returns zero counts. -/

/-- The transient record `saveJobs` receives (extractor output prior to
persistence).  `title`, `company` and `link` are passed to the insert as-is;
the other fields go through a `|| default`. -/
structure RawJobRecord where
  title : String
  company : String
  experience : Option String
  location : Option String
  skills : Option (List String)
  salary : Option String
  link : String
  source : Option String
  postedDate : Option String
  deriving DecidableEq, Repr

/-- A persisted row of the `jobs` relation (the inserted columns; the
serial id and created_at are server-assigned and not modelled). -/
structure JobRow where
  title : String
  company : String
  experience : String
  location : String
  skills : List String
  salary : String
  link : String
  source : String
  posted_date : String
  deriving DecidableEq, Repr

/-- The insert-parameter list of `saveJobs`: each optional field defaulted
exactly as the code's `job.x || d` does (`nowStr` renders the
`new Date()` fallback for `postedDate`). -/
def toRow (nowStr : String) (j : RawJobRecord) : JobRow :=
  { title := j.title
    company := j.company
    experience := jsOrStr j.experience "N/A"
    location := jsOrStr j.location "N/A"
    skills := j.skills.getD []
    salary := jsOrStr j.salary "Not specified"
    link := j.link
    source := jsOrStr j.source "Unknown"
    posted_date := jsOrStr j.postedDate nowStr }

/-- Whether the store already holds a row with this link (the UNIQUE
constraint's conflict test). -/
def hasLink (store : List JobRow) (l : String) : Bool :=
  store.any (fun r => r.link = l)

/-- Number of stored rows carrying this link. -/
def countLink (store : List JobRow) (l : String) : Nat :=
  (store.filter (fun r => r.link = l)).length

/-- Outcome of running the batch's individual inserts in order: the store
after them and how many inserted (rowCount 1), hit a link conflict
(rowCount 0), or individually failed (promise rejected, swallowed). -/
structure InsertTally where
  store : List JobRow
  inserted : Nat
  conflicted : Nat
  failed : Nat
  deriving DecidableEq, Repr

/-- Sequential execution of the batch's inserts.  `fails` is the oracle
saying which individual inserts reject for a non-conflict reason (`headD
false`: inserts beyond the oracle succeed). -/
def runInserts (nowStr : String) (store : List JobRow) :
    List RawJobRecord → List Bool → InsertTally
  | [], _ => ⟨store, 0, 0, 0⟩
  | j :: rest, fs =>
    if fs.headD false then
      let t := runInserts nowStr store rest fs.tail
      { t with failed := t.failed + 1 }
    else if hasLink store j.link then
      let t := runInserts nowStr store rest fs.tail
      { t with conflicted := t.conflicted + 1 }
    else
      let t := runInserts nowStr (store ++ [toRow nowStr j]) rest fs.tail
      { t with inserted := t.inserted + 1 }

/-- What `saveJobs` hands back, together with the store it leaves behind and
flags describing the effect path: `touched` is true when a client was
connected and BEGIN issued, `rolledBack`/`logged` mark the catch path. -/
structure SaveResult where
  store : List JobRow
  newJobs : Nat
  duplicates : Nat
  touched : Bool
  rolledBack : Bool
  logged : Bool
  deriving DecidableEq, Repr

/-- `saveJobs` (server.js lines 84-125; the duplicate server's copy at lines
1055-1096 is textually identical in all modelled respects).  Empty batch:
early return, storage untouched.  `hardError` true: BEGIN/COMMIT fails, the
catch rolls back, logs, and returns zero counts.  Otherwise the individual
inserts run, `newJobs` counts affected-row-count-1 results and `duplicates`
is the batch length minus `newJobs`. -/
def saveJobs (nowStr : String) (store : List JobRow) (jobs : List RawJobRecord)
    (fails : List Bool) (hardError : Bool) : SaveResult :=
  if jobs.length = 0 then ⟨store, 0, 0, false, false, false⟩
  else if hardError then ⟨store, 0, 0, true, true, true⟩
  else
    let t := runInserts nowStr store jobs fails
    ⟨t.store, t.inserted, jobs.length - t.inserted, true, false, false⟩

/-! ## HTTP routes

`server.js` holds two concatenated server variants.  The first (lines
1-974) supports the sources naukri, shine, hirist and linkedin on
`POST /api/crawl`; the second (lines 975 on) supports only naukri, shine
and hirist.  Both validate `role`/`location` first, then dispatch on
`source.toLowerCase()`. -/

/-- The crawl sources of the first server variant. -/
inductive Source1 where
  | naukri | shine | hirist | linkedin
  deriving DecidableEq, Repr

/-- The crawl sources of the second (duplicate) server variant. -/
inductive Source2 where
  | naukri | shine | hirist
  deriving DecidableEq, Repr

/-- The switch of the first server's `POST /api/crawl` on the lowercased
source value. -/
def parseSource1 (s : String) : Option Source1 :=
  if lowerStr s = "naukri" then some .naukri
  else if lowerStr s = "shine" then some .shine
  else if lowerStr s = "hirist" then some .hirist
  else if lowerStr s = "linkedin" then some .linkedin
  else none

/-- The switch of the second server's `POST /api/crawl`. -/
def parseSource2 (s : String) : Option Source2 :=
  if lowerStr s = "naukri" then some .naukri
  else if lowerStr s = "shine" then some .shine
  else if lowerStr s = "hirist" then some .hirist
  else none

/-- The 400 message of the first server's invalid-source branch (line
747). -/
def invalidSourceMsg1 : String :=
  "Invalid source. Supported sources are \"naukri\", \"shine\", \"hirist\", and \"linkedin\"."

/-- The 400 message of the second server's invalid-source branch (line
1632). -/
def invalidSourceMsg2 : String :=
  "Invalid source. Supported sources are \"naukri\", \"shine\", and \"hirist\"."

/-- The body of a `POST /api/crawl` request (`none` = field absent). -/
structure CrawlRequest where
  role : Option String
  location : Option String
  source : Option String
  experience : Option String
  deriving Repr

/-- What the crawl route answers, together with the store it leaves behind
and whether a crawler was invoked. -/
structure CrawlResponse where
  status : Nat
  success : Bool
  error : Option String
  totalJobs : Nat
  newJobs : Nat
  duplicates : Nat
  crawlStarted : Bool
  store : List JobRow
  deriving DecidableEq, Repr

/-- The first server's `POST /api/crawl` (lines 717-774).  `crawlFn` is the
selected crawler (an `Except` models a crawler that throws, caught by the
route's try/catch as a 500); persistence runs through `saveJobs`. -/
def apiCrawl1 (req : CrawlRequest) (crawlFn : Source1 → Except String (List RawJobRecord))
    (nowStr : String) (store : List JobRow) (fails : List Bool) (hardError : Bool) :
    CrawlResponse :=
  if isFalsy req.role || isFalsy req.location then
    ⟨400, false, some "Role and location are required", 0, 0, 0, false, store⟩
  else
    match parseSource1 (req.source.getD "naukri") with
    | none => ⟨400, false, some invalidSourceMsg1, 0, 0, 0, false, store⟩
    | some s =>
      match crawlFn s with
      | .error e => ⟨500, false, some e, 0, 0, 0, true, store⟩
      | .ok jobs =>
        let r := saveJobs nowStr store jobs fails hardError
        ⟨200, true, none, jobs.length, r.newJobs, r.duplicates, true, r.store⟩

/-- The second server's `POST /api/crawl` (lines 1599-1660): same shape,
three supported sources. -/
def apiCrawl2 (req : CrawlRequest) (crawlFn : Source2 → Except String (List RawJobRecord))
    (nowStr : String) (store : List JobRow) (fails : List Bool) (hardError : Bool) :
    CrawlResponse :=
  if isFalsy req.role || isFalsy req.location then
    ⟨400, false, some "Role and location are required", 0, 0, 0, false, store⟩
  else
    match parseSource2 (req.source.getD "naukri") with
    | none => ⟨400, false, some invalidSourceMsg2, 0, 0, 0, false, store⟩
    | some s =>
      match crawlFn s with
      | .error e => ⟨500, false, some e, 0, 0, 0, true, store⟩
      | .ok jobs =>
        let r := saveJobs nowStr store jobs fails hardError
        ⟨200, true, none, jobs.length, r.newJobs, r.duplicates, true, r.store⟩

/-! ## Query service (`GET /api/jobs`, lines 776-828) -/

/-- Descending `posted_date` order between rows: the meaning of
`ORDER BY posted_date DESC` on the TEXT column. -/
def jobDesc (a b : JobRow) : Prop := strLe b.posted_date a.posted_date = true

instance : DecidableRel jobDesc := fun a b =>
  inferInstanceAs (Decidable (strLe b.posted_date a.posted_date = true))

/-- The conjunctive WHERE predicate built from the active filters: each one
an `ILIKE '%q%'` against title / location / source. -/
def matchesJobFilters (role location source : Option String) (r : JobRow) : Bool :=
  (match filterActive role with
   | none => true
   | some q => containsCI r.title q) &&
  (match filterActive location with
   | none => true
   | some q => containsCI r.location q) &&
  (match filterActive source with
   | none => true
   | some q => containsCI r.source q)

/-- Adjacent-pairs check that a row list is in descending `posted_date`
order (the observable meaning of `ORDER BY posted_date DESC`). -/
def chainDesc : List JobRow → Bool
  | [] => true
  | [_] => true
  | a :: b :: rest => strLe b.posted_date a.posted_date && chainDesc (b :: rest)

/-- The JSON shape `GET /api/jobs` answers with. -/
structure JobsQueryResult where
  count : Nat
  total : Nat
  page : Nat
  pages : Nat
  jobs : List JobRow
  deriving DecidableEq, Repr

/-- `GET /api/jobs`: filter, order by posted_date descending, paginate with
`OFFSET (page-1)*limit LIMIT limit`, and compute `total` by a count query
over the same WHERE clauses.  `pages` is `ceil(total/limit)`. -/
def apiJobs (store : List JobRow) (role location source : Option String)
    (page limit : Nat) : JobsQueryResult :=
  let offset := (page - 1) * limit
  let filtered := store.filter (matchesJobFilters role location source)
  let sorted := List.insertionSort jobDesc filtered
  let jobs := (sorted.drop offset).take limit
  let total := filtered.length
  { count := jobs.length
    total := total
    page := page
    pages := (total + limit - 1) / limit
    jobs := jobs }

/-! ## Alert dispatcher (`POST /api/alert`, lines 830-892) -/

/-- The alert query's WHERE predicate: posted_date within the last 24 hours
(string comparison against the rendered cutoff), title ILIKE the role, and
the optional location/source ILIKE filters. -/
def alertMatches (cutoff : String) (role : String) (location source : Option String)
    (r : JobRow) : Bool :=
  strLe cutoff r.posted_date &&
  containsCI r.title role &&
  (match filterActive location with
   | none => true
   | some q => containsCI r.location q) &&
  (match filterActive source with
   | none => true
   | some q => containsCI r.source q)

/-- What the alert route answers; `selected` is the job list handed to the
mail collaborator (empty when none was). -/
structure AlertResult where
  status : Nat
  success : Bool
  sent : Nat
  deliveryAttempted : Bool
  selected : List JobRow
  message : Option String
  deriving DecidableEq, Repr

/-- `POST /api/alert`: validate email/role, select up to 10 recent matching
rows ordered by posted_date descending, answer `sent: 0` with no delivery
attempt when none match, otherwise hand off to the mailer (`emailOk` is the
collaborator's boolean result; false becomes a 500). -/
def apiAlert (store : List JobRow) (cutoff : String) (email role location source : Option String)
    (emailOk : Bool) : AlertResult :=
  if isFalsy email || isFalsy role then
    ⟨400, false, 0, false, [], some "Email and role are required"⟩
  else
    let sel :=
      List.take 10 (List.insertionSort jobDesc
        (store.filter (alertMatches cutoff (role.getD "") location source)))
    if sel.length = 0 then
      ⟨200, true, 0, false, [], some "No matching jobs found to send"⟩
    else if emailOk then
      ⟨200, true, sel.length, true, sel, none⟩
    else
      ⟨500, false, 0, true, sel, some "Failed to send email"⟩

/-! ## Concrete data used by witnesses and counterexamples -/

/-- A concrete raw record for exercising the dedup gate. -/
def cJob : RawJobRecord :=
  { title := "Backend Engineer"
    company := "Acme"
    experience := none
    location := some "Chennai"
    skills := some ["node"]
    salary := none
    link := "https://example.com/job/1"
    source := some "Naukri"
    postedDate := some "2025-10-01" }

/-- A second concrete raw record with a different link. -/
def cJob2 : RawJobRecord :=
  { title := "Frontend Engineer"
    company := "Acme"
    experience := some "2-4 yrs"
    location := some "Pune"
    skills := none
    salary := some "10 LPA"
    link := "https://example.com/job/2"
    source := some "Naukri"
    postedDate := some "2025-10-02" }

/-- A Naukri node whose per-node extraction succeeds. -/
def cGoodNaukriNode : NaukriNode :=
  { throws := false
    titleText := some " Data Engineer "
    companyText := some "Acme"
    expText := none
    locText := some "Chennai"
    skillTexts := ["python", " sql "]
    titleHref := some "https://example.com/job/3"
    postDayText := some "Posted 2 days ago" }

/-- A Naukri node whose per-node extraction throws. -/
def cBadNaukriNode : NaukriNode :=
  { throws := true
    titleText := none
    companyText := none
    expText := none
    locText := none
    skillTexts := []
    titleHref := none
    postDayText := none }

/-- A LinkedIn node with every sub-field missing (and not throwing). -/
def cEmptyLINode : LINode :=
  { throws := false
    titleText := none
    linkHref := none
    companyText := none
    locationText := none
    timeText := none }

/-- A LinkedIn node whose per-node extraction throws. -/
def cBadLINode : LINode :=
  { throws := true
    titleText := some "ignored"
    linkHref := none
    companyText := none
    locationText := none
    timeText := none }

/-- A Shine node with every sub-field missing (and not throwing). -/
def cEmptyShineNode : ShineNode :=
  { throws := false
    titleText := none
    titleHref := none
    companyText := none
    detailSpanTexts := []
    postedText := none }

/-- The stored row "Backend Engineer" of the spec's query-filtering
example. -/
def cBackendRow : JobRow :=
  { title := "Backend Engineer"
    company := "Acme"
    experience := "N/A"
    location := "Chennai"
    skills := []
    salary := "Not specified"
    link := "https://example.com/job/10"
    source := "Naukri"
    posted_date := "2025-10-02" }

/-- The stored row "Frontend Engineer" of the spec's query-filtering
example. -/
def cFrontendRow : JobRow :=
  { title := "Frontend Engineer"
    company := "Acme"
    experience := "N/A"
    location := "Pune"
    skills := []
    salary := "Not specified"
    link := "https://example.com/job/11"
    source := "LinkedIn"
    posted_date := "2025-10-01" }

/-- The two-row store of the spec's query-filtering example. -/
def cExampleStore : List JobRow := [cFrontendRow, cBackendRow]

/-- A crawl request missing its location. -/
def cReqMissing : CrawlRequest :=
  { role := some "engineer", location := none, source := some "naukri",
    experience := none }

/-- A crawl request naming an unsupported source. -/
def cReqBadSource : CrawlRequest :=
  { role := some "engineer", location := some "chennai",
    source := some "monster", experience := none }

/-- A valid crawl request for the naukri source. -/
def cReqValid : CrawlRequest :=
  { role := some "engineer", location := some "chennai",
    source := some "Naukri", experience := none }

/-- A crawl request for the linkedin source (supported only by the first
server variant). -/
def cReqLinkedIn : CrawlRequest :=
  { role := some "engineer", location := some "chennai",
    source := some "linkedin", experience := none }

/-- A crawler stub returning no jobs for any first-variant source. -/
def cNoJobs1 : Source1 → Except String (List RawJobRecord) := fun _ => .ok []

/-- A crawler stub returning no jobs for any second-variant source. -/
def cNoJobs2 : Source2 → Except String (List RawJobRecord) := fun _ => .ok []

/-- A crawler stub returning one job for any first-variant source. -/
def cOneJob1 : Source1 → Except String (List RawJobRecord) := fun _ => .ok [cJob]

/-- A posted-date text built from a digit run followed by a fixed suffix,
e.g. `digitText ['2'] " days ago" = "2 days ago"`. -/
def digitText (ds : List Char) (sfx : String) : String := String.mk (ds ++ sfx.data)

/-! ## Helper lemmas: characters and substrings -/

theorem isPre_mem {p cs : List Char} (h : isPre p cs = true) : ∀ c ∈ p, c ∈ cs := by
  induction p generalizing cs with
  | nil => intro c hc; cases hc
  | cons a as ih =>
    cases cs with
    | nil => simp [isPre] at h
    | cons b bs =>
      simp only [isPre, Bool.and_eq_true, decide_eq_true_eq] at h
      intro c hc
      rcases List.mem_cons.mp hc with hc | hc
      · subst hc; rw [h.1]; exact List.mem_cons_self b bs
      · exact List.mem_cons_of_mem b (ih h.2 c hc)

theorem hasSub_mem {cs p : List Char} (h : hasSub cs p = true) {c : Char}
    (hc : c ∈ p) : c ∈ cs := by
  induction cs with
  | nil =>
    simp only [hasSub, List.isEmpty_iff] at h
    subst h; cases hc
  | cons b bs ih =>
    simp only [hasSub, Bool.or_eq_true] at h
    rcases h with h | h
    · exact isPre_mem h c hc
    · exact List.mem_cons_of_mem b (ih h)

theorem hasSub_eq_false_of_missing {cs p : List Char} {c : Char} (hc : c ∈ p)
    (hn : c ∉ cs) : hasSub cs p = false := by
  cases h : hasSub cs p
  · rfl
  · exact absurd (hasSub_mem h hc) hn

theorem hasSub_append_right {xs ys p : List Char} (h : hasSub ys p = true) :
    hasSub (xs ++ ys) p = true := by
  induction xs with
  | nil => simpa using h
  | cons a as ih => simp [hasSub, ih]

theorem lowerChar_of_digit {c : Char} (h : isDigitCh c = true) : lowerChar c = c := by
  simp only [isDigitCh, Bool.and_eq_true, decide_eq_true_eq] at h
  unfold lowerChar
  rw [if_neg]
  omega

theorem isWsCh_of_digit {c : Char} (h : isDigitCh c = true) : isWsCh c = false := by
  simp only [isDigitCh, Bool.and_eq_true, decide_eq_true_eq] at h
  simp only [isWsCh, Bool.or_eq_false_iff, decide_eq_false_iff_not]
  omega

theorem map_lowerChar_id {ds : List Char} (hd : ∀ c ∈ ds, lowerChar c = c) :
    ds.map lowerChar = ds := by
  induction ds with
  | nil => rfl
  | cons c cs ih =>
    simp only [List.map_cons, hd c (List.mem_cons_self c cs)]
    rw [ih (fun x hx => hd x (List.mem_cons_of_mem c hx))]

theorem takeWhile_nil_of_head {p : Char → Bool} {b : List Char}
    (hb : ∀ c, b.head? = some c → p c = false) : b.takeWhile p = [] := by
  cases b with
  | nil => rfl
  | cons c cs => simp [List.takeWhile_cons, hb c rfl]

theorem takeWhile_append_all {p : Char → Bool} {a b : List Char}
    (ha : ∀ c ∈ a, p c = true) (hb : b.takeWhile p = []) :
    (a ++ b).takeWhile p = a := by
  induction a with
  | nil => simpa using hb
  | cons x xs ih =>
    simp only [List.cons_append, List.takeWhile_cons,
      if_pos (ha x (List.mem_cons_self x xs))]
    rw [ih (fun c hc => ha c (List.mem_cons_of_mem x hc))]

theorem dropWhile_cons_of_neg {p : Char → Bool} {c : Char} {l : List Char}
    (h : p c = false) : (c :: l).dropWhile p = c :: l := by
  simp [List.dropWhile_cons, h]

theorem trimStr_noop {xs : List Char}
    (h1 : ∀ c, xs.head? = some c → isWsCh c = false)
    (h2 : ∀ c, xs.getLast? = some c → isWsCh c = false) :
    trimStr (String.mk xs) = String.mk xs := by
  cases xs with
  | nil => rfl
  | cons c cs =>
    have hdrop : (c :: cs).dropWhile isWsCh = c :: cs :=
      dropWhile_cons_of_neg (h1 c rfl)
    cases hr : (c :: cs).reverse with
    | nil => exact absurd hr (by simp)
    | cons y ys =>
      have hy : (c :: cs).getLast? = some y := by
        rw [← List.head?_reverse, hr]; rfl
      have hdrop2 : (y :: ys).dropWhile isWsCh = y :: ys :=
        dropWhile_cons_of_neg (h2 y hy)
      show String.mk ((((c :: cs).dropWhile isWsCh).reverse.dropWhile isWsCh).reverse)
        = String.mk (c :: cs)
      rw [hdrop, hr, hdrop2, ← hr, List.reverse_reverse]

theorem not_mem_of_digits {ds : List Char} (hd : ∀ c ∈ ds, isDigitCh c = true)
    {c : Char} (hc : isDigitCh c = false) : c ∉ ds := by
  intro h
  rw [hd c h] at hc
  cases hc

theorem parseIntJS_digits {ds sfx : List Char} (hne : ds ≠ [])
    (hd : ∀ c ∈ ds, isDigitCh c = true)
    (hs : ∀ c, sfx.head? = some c → isDigitCh c = false) :
    parseIntJS (String.mk (ds ++ sfx)) = some ((digitsToNat ds : Nat) : Int) := by
  cases ds with
  | nil => exact absurd rfl hne
  | cons d ds' =>
    have hdd : isDigitCh d = true := hd d (List.mem_cons_self d ds')
    have hdrop : List.dropWhile isWsCh (d :: (ds' ++ sfx)) = d :: (ds' ++ sfx) :=
      dropWhile_cons_of_neg (isWsCh_of_digit hdd)
    have hminus : d ≠ '-' := fun h => by rw [h] at hdd; exact absurd hdd (by decide)
    have hplus : d ≠ '+' := fun h => by rw [h] at hdd; exact absurd hdd (by decide)
    have htake : List.takeWhile isDigitCh (d :: (ds' ++ sfx)) = d :: ds' := by
      have h := takeWhile_append_all (p := isDigitCh) hd (takeWhile_nil_of_head hs)
      simpa using h
    simp only [parseIntJS, leadNat, List.append_eq, List.cons_append, hdrop,
      List.head?_cons]
    rw [if_neg (by simp [hminus]), if_neg (by simp [hplus])]
    rw [htake]
    simp

theorem scanNumUnit_none_of_missing {unit : List Char} {c : Char} (hc : c ∈ unit) :
    ∀ {cs : List Char}, c ∉ cs → scanNumUnit unit cs = none := by
  intro cs
  induction cs with
  | nil => intro _; rfl
  | cons x rest ih =>
    intro hn
    have hn' : c ∉ rest := fun h => hn (List.mem_cons_of_mem x h)
    have hsub : ∀ n m : Nat, isPre unit (((x :: rest).drop n).drop m) = false := by
      intro n m
      cases h : isPre unit (((x :: rest).drop n).drop m) with
      | false => rfl
      | true =>
        exact absurd (List.drop_subset n (x :: rest)
          (List.drop_subset m ((x :: rest).drop n) (isPre_mem h c hc))) hn
    simp only [scanNumUnit]
    split
    · exact ih hn'
    · rw [hsub, Bool.and_false]
      simp only [Bool.false_eq_true, if_false]
      exact ih hn'

theorem findNumUnit_none_of_missing {s unit : String} {c : Char} (hc : c ∈ unit.data)
    (hn : c ∉ s.data) : findNumUnit s unit = none :=
  scanNumUnit_none_of_missing hc hn

theorem scanNumUnit_canonical {unit ds tail : List Char} (hne : ds ≠ [])
    (hd : ∀ c ∈ ds, isDigitCh c = true)
    (ht : ∀ c, tail.head? = some c → isWsCh c = false)
    (hu : isPre unit tail = true) :
    scanNumUnit unit (ds ++ ' ' :: tail) = some (digitsToNat ds) := by
  cases ds with
  | nil => exact absurd rfl hne
  | cons d ds' =>
    have htake : (d :: (ds' ++ ' ' :: tail)).takeWhile isDigitCh = d :: ds' := by
      have h := takeWhile_append_all (p := isDigitCh) hd
        (takeWhile_nil_of_head (b := ' ' :: tail) (fun c h => by
          rw [← Option.some.inj h]; decide))
      simpa using h
    have hafter : (d :: (ds' ++ ' ' :: tail)).drop (d :: ds').length = ' ' :: tail := by
      have h := List.drop_left (d :: ds') (' ' :: tail)
      simpa using h
    have hws : (' ' :: tail).takeWhile isWsCh = [' '] := by
      simp only [List.takeWhile_cons]
      rw [if_pos (by decide), takeWhile_nil_of_head ht]
    simp only [scanNumUnit, List.append_eq, List.cons_append]
    rw [htake]
    simp only [List.isEmpty_cons, Bool.false_eq_true, if_false]
    rw [hafter, hws]
    simp [hu]

theorem removeToksAux_noop {toks : List (List Char)} :
    ∀ (fuel : Nat) {cs : List Char},
      (∀ t ∈ toks, ∃ c, c ∈ t ∧ c ∉ cs) → removeToksAux toks fuel cs = cs := by
  intro fuel
  induction fuel with
  | zero => intro cs _; rfl
  | succ f ih =>
    intro cs h
    cases cs with
    | nil => rfl
    | cons x rest =>
      have hfind : toks.find? (fun t => !t.isEmpty && isPre t (x :: rest)) = none := by
        rw [List.find?_eq_none]
        intro t ht hp
        obtain ⟨c, hct, hcn⟩ := h t ht
        simp only [Bool.and_eq_true] at hp
        exact hcn (isPre_mem hp.2 c hct)
      simp only [removeToksAux, hfind]
      congr 1
      exact ih (fun t ht => by
        obtain ⟨c, hct, hcn⟩ := h t ht
        exact ⟨c, hct, fun hm => hcn (List.mem_cons_of_mem x hm)⟩)

theorem removeToks_noop {toks : List (List Char)} {cs : List Char}
    (h : ∀ t ∈ toks, ∃ c, c ∈ t ∧ c ∉ cs) : removeToks toks cs = cs :=
  removeToksAux_noop cs.length h

theorem trimStr_digitText {ds : List Char} {sfx : String} (hne : ds ≠ [])
    (hd : ∀ c ∈ ds, isDigitCh c = true) (hsne : sfx.data ≠ [])
    (hlast : ∀ c, sfx.data.getLast? = some c → isWsCh c = false) :
    trimStr (digitText ds sfx) = digitText ds sfx := by
  apply trimStr_noop
  · intro c hc
    cases ds with
    | nil => exact absurd rfl hne
    | cons d ds' =>
      simp only [List.cons_append, List.head?_cons, Option.some.injEq] at hc
      rw [← hc]
      exact isWsCh_of_digit (hd d (List.mem_cons_self d ds'))
  · intro c hc
    rw [List.getLast?_append] at hc
    cases hj : sfx.data.getLast? with
    | none =>
      exact absurd (List.getLast?_eq_none_iff.mp hj) hsne
    | some y =>
      rw [hj] at hc
      simp only [Option.or_some, Option.some.injEq] at hc
      rw [← hc]
      exact hlast y hj

theorem lowerStr_digitText {ds : List Char} {sfx : String}
    (hd : ∀ c ∈ ds, isDigitCh c = true)
    (hs : sfx.data.map lowerChar = sfx.data) :
    lowerStr (digitText ds sfx) = digitText ds sfx := by
  simp only [lowerStr, digitText, List.map_append, hs]
  rw [map_lowerChar_id (fun c hc => lowerChar_of_digit (hd c hc))]

theorem includesStr_digitText_false {ds : List Char} {sfx pat : String}
    (hd : ∀ c ∈ ds, isDigitCh c = true) {c : Char} (hc : c ∈ pat.data)
    (hdig : isDigitCh c = false) (hns : c ∉ sfx.data) :
    includesStr (digitText ds sfx) pat = false := by
  show hasSub (ds ++ sfx.data) pat.data = false
  apply hasSub_eq_false_of_missing hc
  intro hm
  rcases List.mem_append.mp hm with hm | hm
  · exact absurd (hd c hm) (by simp [hdig])
  · exact hns hm

theorem includesStr_digitText_true {ds : List Char} {sfx pat : String}
    (h : hasSub sfx.data pat.data = true) :
    includesStr (digitText ds sfx) pat = true := by
  show hasSub (ds ++ sfx.data) pat.data = true
  exact hasSub_append_right h

/-! ## Helper lemmas: the string order and descending chains -/

theorem leChars_total : ∀ as bs : List Char, leChars as bs = true ∨ leChars bs as = true := by
  intro as
  induction as with
  | nil => intro bs; exact Or.inl rfl
  | cons a as ih =>
    intro bs
    cases bs with
    | nil => exact Or.inr rfl
    | cons b bs' =>
      simp only [leChars]
      by_cases h1 : a.toNat < b.toNat
      · left; rw [if_pos h1]
      · by_cases h2 : b.toNat < a.toNat
        · right; rw [if_pos h2]
        · rw [if_neg h1, if_neg h2, if_neg h2, if_neg h1]
          exact ih bs'

theorem leChars_trans : ∀ as bs cs : List Char,
    leChars as bs = true → leChars bs cs = true → leChars as cs = true := by
  intro as
  induction as with
  | nil => intro bs cs _ _; rfl
  | cons a as ih =>
    intro bs cs h1 h2
    cases bs with
    | nil => simp [leChars] at h1
    | cons b bs' =>
      cases cs with
      | nil => simp [leChars] at h2
      | cons c cs' =>
        simp only [leChars] at h1 h2 ⊢
        by_cases hab : a.toNat < b.toNat
        · rw [if_pos hab] at h1
          by_cases hbc : b.toNat < c.toNat
          · rw [if_pos (by omega)]
          · by_cases hcb : c.toNat < b.toNat
            · rw [if_neg hbc, if_pos hcb] at h2
              cases h2
            · rw [if_pos (by omega)]
        · by_cases hba : b.toNat < a.toNat
          · rw [if_neg hab, if_pos hba] at h1
            cases h1
          · rw [if_neg hab, if_neg hba] at h1
            by_cases hbc : b.toNat < c.toNat
            · rw [if_pos (by omega)]
            · by_cases hcb : c.toNat < b.toNat
              · rw [if_neg hbc, if_pos hcb] at h2
                cases h2
              · rw [if_neg hbc, if_neg hcb] at h2
                rw [if_neg (by omega), if_neg (by omega)]
                exact ih bs' cs' h1 h2

instance : IsTotal JobRow jobDesc :=
  ⟨fun a b => leChars_total b.posted_date.data a.posted_date.data⟩

instance : IsTrans JobRow jobDesc :=
  ⟨fun _ b _ h1 h2 => leChars_trans _ b.posted_date.data _ h2 h1⟩

theorem chainDesc_of_sorted : ∀ {l : List JobRow},
    List.Sorted jobDesc l → chainDesc l = true := by
  intro l
  induction l with
  | nil => intro _; rfl
  | cons a rest ih =>
    intro h
    cases rest with
    | nil => rfl
    | cons b rest' =>
      rw [List.sorted_cons] at h
      simp only [chainDesc, Bool.and_eq_true]
      exact ⟨h.1 b (List.mem_cons_self b rest'), ih h.2⟩

/-! ## Helper lemmas: the dedup gate -/

theorem countLink_append (store : List JobRow) (r : JobRow) (l : String) :
    countLink (store ++ [r]) l = countLink store l + (if r.link = l then 1 else 0) := by
  unfold countLink
  rw [List.filter_append, List.length_append]
  by_cases h : r.link = l
  · simp [h]
  · simp [h]

theorem hasLink_append_true {store : List JobRow} {l : String}
    (h : hasLink store l = true) (r : JobRow) : hasLink (store ++ [r]) l = true := by
  unfold hasLink at h ⊢
  rw [List.any_append, h, Bool.true_or]

theorem hasLink_append_self (store : List JobRow) (r : JobRow) :
    hasLink (store ++ [r]) r.link = true := by
  unfold hasLink
  rw [List.any_append]
  simp

theorem countLink_eq_zero_of_not {store : List JobRow} {l : String}
    (h : hasLink store l = false) : countLink store l = 0 := by
  unfold hasLink at h
  unfold countLink
  rw [List.any_eq_false] at h
  rw [List.length_eq_zero, List.filter_eq_nil]
  intro a ha
  exact h a ha

theorem runInserts_inserted_le (nowStr : String) :
    ∀ (jobs : List RawJobRecord) (store : List JobRow) (fs : List Bool),
      (runInserts nowStr store jobs fs).inserted ≤ jobs.length := by
  intro jobs
  induction jobs with
  | nil => intro store fs; exact Nat.le_refl 0
  | cons j rest ih =>
    intro store fs
    simp only [runInserts]
    split
    · exact Nat.le_succ_of_le (ih store fs.tail)
    · split
      · exact Nat.le_succ_of_le (ih store fs.tail)
      · exact Nat.succ_le_succ (ih (store ++ [toRow nowStr j]) fs.tail)

theorem runInserts_total (nowStr : String) :
    ∀ (jobs : List RawJobRecord) (store : List JobRow) (fs : List Bool),
      (runInserts nowStr store jobs fs).inserted
        + (runInserts nowStr store jobs fs).conflicted
        + (runInserts nowStr store jobs fs).failed = jobs.length := by
  intro jobs
  induction jobs with
  | nil => intro store fs; rfl
  | cons j rest ih =>
    intro store fs
    simp only [runInserts]
    split
    · have h := ih store fs.tail
      show (runInserts nowStr store rest fs.tail).inserted
        + (runInserts nowStr store rest fs.tail).conflicted
        + ((runInserts nowStr store rest fs.tail).failed + 1) = rest.length + 1
      omega
    · split
      · have h := ih store fs.tail
        show (runInserts nowStr store rest fs.tail).inserted
          + ((runInserts nowStr store rest fs.tail).conflicted + 1)
          + (runInserts nowStr store rest fs.tail).failed = rest.length + 1
        omega
      · have h := ih (store ++ [toRow nowStr j]) fs.tail
        show (runInserts nowStr (store ++ [toRow nowStr j]) rest fs.tail).inserted + 1
          + (runInserts nowStr (store ++ [toRow nowStr j]) rest fs.tail).conflicted
          + (runInserts nowStr (store ++ [toRow nowStr j]) rest fs.tail).failed
          = rest.length + 1
        omega

theorem runInserts_countLink (nowStr : String) {l : String} :
    ∀ (jobs : List RawJobRecord) (store : List JobRow) (fs : List Bool),
      hasLink store l = true →
      countLink (runInserts nowStr store jobs fs).store l = countLink store l := by
  intro jobs
  induction jobs with
  | nil => intro store fs _; rfl
  | cons j rest ih =>
    intro store fs h
    simp only [runInserts]
    split
    · exact ih store fs.tail h
    · split
      · exact ih store fs.tail h
      · rename_i hconf
        have hne : j.link ≠ l := fun he => hconf (by rw [he]; exact h)
        show countLink (runInserts nowStr (store ++ [toRow nowStr j]) rest fs.tail).store l
          = countLink store l
        rw [ih (store ++ [toRow nowStr j]) fs.tail (hasLink_append_true h _),
          countLink_append]
        simp [toRow, hne]

theorem runInserts_single_fresh (nowStr : String) {store : List JobRow}
    {j : RawJobRecord} (h : hasLink store j.link = false) :
    runInserts nowStr store [j] [false] = ⟨store ++ [toRow nowStr j], 1, 0, 0⟩ := by
  simp [runInserts, h]

theorem runInserts_single_dup (nowStr : String) {store : List JobRow}
    {j : RawJobRecord} (h : hasLink store j.link = true) :
    runInserts nowStr store [j] [false] = ⟨store, 0, 1, 0⟩ := by
  simp [runInserts, h]

/-! ## Helper lemmas: extractors -/

theorem extractLinkedInJobs_filter_map (now : Int) :
    ∀ nodes : List LINode,
      extractLinkedInJobs now nodes
        = (nodes.filter (fun m => !m.throws)).map (extractLINode now) := by
  intro nodes
  induction nodes with
  | nil => rfl
  | cons n rest ih =>
    simp only [extractLinkedInJobs, List.filter_cons]
    cases h : n.throws with
    | true => simpa [h] using ih
    | false => simpa [h] using ih

theorem extractShineJobs_filter_map (now : Int) :
    ∀ nodes : List ShineNode,
      extractShineJobs now nodes
        = (nodes.filter (fun m => !m.throws)).map (extractShineNode now) := by
  intro nodes
  induction nodes with
  | nil => rfl
  | cons n rest ih =>
    simp only [extractShineJobs, List.filter_cons]
    cases h : n.throws with
    | true => simpa [h] using ih
    | false => simpa [h] using ih

theorem naukriExtractJobs_ok : ∀ {nodes : List NaukriNode},
    (∀ m ∈ nodes, m.throws = false) →
    naukriExtractJobs nodes = .ok (nodes.map extractNaukriNode) := by
  intro nodes
  induction nodes with
  | nil => intro _; rfl
  | cons n rest ih =>
    intro h
    simp only [naukriExtractJobs, h n (List.mem_cons_self n rest),
      Bool.false_eq_true, if_false]
    rw [ih (fun m hm => h m (List.mem_cons_of_mem n hm))]
    rfl

theorem naukriExtractJobs_error {n : NaukriNode} (hth : n.throws = true) :
    ∀ {nodes : List NaukriNode}, n ∈ nodes → naukriExtractJobs nodes = .error () := by
  intro nodes
  induction nodes with
  | nil => intro h; cases h
  | cons m rest ih =>
    intro h
    rcases List.mem_cons.mp h with h | h
    · subst h
      simp [naukriExtractJobs, hth]
    · simp only [naukriExtractJobs]
      split
      · rfl
      · rw [ih h]

theorem linkedIn_pd {ds : List Char} {sfx : String} (hne : ds ≠ [])
    (hd : ∀ c ∈ ds, isDigitCh c = true)
    (hlow : sfx.data.map lowerChar = sfx.data)
    (hsne : sfx.data ≠ [])
    (hlast : ∀ c, sfx.data.getLast? = some c → isWsCh c = false) :
    lowerStr (trimStr (digitText ds sfx)) = digitText ds sfx := by
  rw [trimStr_digitText hne hd hsne hlast, lowerStr_digitText hd hlow]

theorem normalizeLinkedIn_days (now : Int) {ds : List Char} (hne : ds ≠ [])
    (hd : ∀ c ∈ ds, isDigitCh c = true) (hnz : digitsToNat ds ≠ 0) :
    normalizeLinkedInDate now (digitText ds " days ago")
      = .dateOnly (dayOf (now - (digitsToNat ds : Int) * 1440)) := by
  have hpd : lowerStr (trimStr (digitText ds " days ago")) = digitText ds " days ago" := linkedIn_pd hne hd (by decide) (by decide)
    (fun c hc => by rw [← Option.some.inj hc]; decide)
  have hparse : parseIntJS (digitText ds " days ago")
      = some ((digitsToNat ds : Nat) : Int) :=
    parseIntJS_digits hne hd (fun c h => by rw [← Option.some.inj h]; decide)
  have h1 : includesStr (digitText ds " days ago") "hour" = false :=
    includesStr_digitText_false (c := 'h') hd (by decide) (by decide) (by decide)
  have h2 : includesStr (digitText ds " days ago") "day" = true :=
    includesStr_digitText_true (by decide)
  simp only [normalizeLinkedInDate, hpd, hparse, h1, h2, Bool.false_eq_true,
    if_false, if_true]
  rw [if_neg (by simpa using hnz)]


theorem normalizeLinkedIn_hours (now : Int) {ds : List Char} (hne : ds ≠ [])
    (hd : ∀ c ∈ ds, isDigitCh c = true) (hnz : digitsToNat ds ≠ 0) :
    normalizeLinkedInDate now (digitText ds " hours ago")
      = .instant (now - (digitsToNat ds : Int) * 60) := by
  have hpd : lowerStr (trimStr (digitText ds " hours ago")) = digitText ds " hours ago" := linkedIn_pd hne hd (by decide) (by decide)
    (fun c hc => by rw [← Option.some.inj hc]; decide)
  have hparse : parseIntJS (digitText ds " hours ago")
      = some ((digitsToNat ds : Nat) : Int) :=
    parseIntJS_digits hne hd (fun c h => by rw [← Option.some.inj h]; decide)
  have h1 : includesStr (digitText ds " hours ago") "hour" = true :=
    includesStr_digitText_true (by decide)
  simp only [normalizeLinkedInDate, hpd, hparse, h1, if_true]
  rw [if_neg (by simpa using hnz)]

theorem normalizeLinkedIn_weeks (now : Int) {ds : List Char} (hne : ds ≠ [])
    (hd : ∀ c ∈ ds, isDigitCh c = true) (hnz : digitsToNat ds ≠ 0) :
    normalizeLinkedInDate now (digitText ds " weeks ago")
      = .dateOnly (dayOf (now - (digitsToNat ds : Int) * 7 * 1440)) := by
  have hpd : lowerStr (trimStr (digitText ds " weeks ago")) = digitText ds " weeks ago" := linkedIn_pd hne hd (by decide) (by decide)
    (fun c hc => by rw [← Option.some.inj hc]; decide)
  have hparse : parseIntJS (digitText ds " weeks ago")
      = some ((digitsToNat ds : Nat) : Int) :=
    parseIntJS_digits hne hd (fun c h => by rw [← Option.some.inj h]; decide)
  have h1 : includesStr (digitText ds " weeks ago") "hour" = false :=
    includesStr_digitText_false (c := 'h') hd (by decide) (by decide) (by decide)
  have h2 : includesStr (digitText ds " weeks ago") "day" = false :=
    includesStr_digitText_false (c := 'd') hd (by decide) (by decide) (by decide)
  have h3 : includesStr (digitText ds " weeks ago") "week" = true :=
    includesStr_digitText_true (by decide)
  simp only [normalizeLinkedInDate, hpd, hparse, h1, h2, h3, Bool.false_eq_true,
    if_false, if_true]
  rw [if_neg (by simpa using hnz)]

theorem normalizeLinkedIn_months (now : Int) {ds : List Char} (hne : ds ≠ [])
    (hd : ∀ c ∈ ds, isDigitCh c = true) (hnz : digitsToNat ds ≠ 0) :
    normalizeLinkedInDate now (digitText ds " months ago")
      = .dateOnly (dayOf (jsSubMonths now (digitsToNat ds : Int))) := by
  have hpd : lowerStr (trimStr (digitText ds " months ago")) = digitText ds " months ago" := linkedIn_pd hne hd (by decide) (by decide)
    (fun c hc => by rw [← Option.some.inj hc]; decide)
  have hparse : parseIntJS (digitText ds " months ago")
      = some ((digitsToNat ds : Nat) : Int) :=
    parseIntJS_digits hne hd (fun c h => by rw [← Option.some.inj h]; decide)
  have h1 : includesStr (digitText ds " months ago") "hour" = false :=
    includesStr_digitText_false (c := 'u') hd (by decide) (by decide) (by decide)
  have h2 : includesStr (digitText ds " months ago") "day" = false :=
    includesStr_digitText_false (c := 'd') hd (by decide) (by decide) (by decide)
  have h3 : includesStr (digitText ds " months ago") "week" = false :=
    includesStr_digitText_false (c := 'w') hd (by decide) (by decide) (by decide)
  have h4 : includesStr (digitText ds " months ago") "month" = true :=
    includesStr_digitText_true (by decide)
  simp only [normalizeLinkedInDate, hpd, hparse, h1, h2, h3, h4, Bool.false_eq_true,
    if_false, if_true]
  rw [if_neg (by simpa using hnz)]

theorem normalizeLinkedIn_minutes (now : Int) {ds : List Char} (hne : ds ≠ [])
    (hd : ∀ c ∈ ds, isDigitCh c = true) (hnz : digitsToNat ds ≠ 0) :
    normalizeLinkedInDate now (digitText ds " minutes ago")
      = .instant (now - (digitsToNat ds : Int)) := by
  have hpd : lowerStr (trimStr (digitText ds " minutes ago")) = digitText ds " minutes ago" := linkedIn_pd hne hd (by decide) (by decide)
    (fun c hc => by rw [← Option.some.inj hc]; decide)
  have hparse : parseIntJS (digitText ds " minutes ago")
      = some ((digitsToNat ds : Nat) : Int) :=
    parseIntJS_digits hne hd (fun c h => by rw [← Option.some.inj h]; decide)
  have h1 : includesStr (digitText ds " minutes ago") "hour" = false :=
    includesStr_digitText_false (c := 'h') hd (by decide) (by decide) (by decide)
  have h2 : includesStr (digitText ds " minutes ago") "day" = false :=
    includesStr_digitText_false (c := 'd') hd (by decide) (by decide) (by decide)
  have h3 : includesStr (digitText ds " minutes ago") "week" = false :=
    includesStr_digitText_false (c := 'w') hd (by decide) (by decide) (by decide)
  have h4 : includesStr (digitText ds " minutes ago") "month" = false :=
    includesStr_digitText_false (c := 'h') hd (by decide) (by decide) (by decide)
  have h5 : includesStr (digitText ds " minutes ago") "minute" = true :=
    includesStr_digitText_true (by decide)
  simp only [normalizeLinkedInDate, hpd, hparse, h1, h2, h3, h4, h5,
    Bool.false_eq_true, if_false, if_true]
  rw [if_neg (by simpa using hnz)]

theorem normalizeLinkedIn_raw (now : Int) (t : String)
    (h1 : includesStr (lowerStr (trimStr t)) "hour" = false)
    (h2 : includesStr (lowerStr (trimStr t)) "day" = false)
    (h3 : includesStr (lowerStr (trimStr t)) "week" = false)
    (h4 : includesStr (lowerStr (trimStr t)) "month" = false)
    (h5 : includesStr (lowerStr (trimStr t)) "minute" = false) :
    normalizeLinkedInDate now t = .raw (trimStr t) := by
  simp only [normalizeLinkedInDate, h1, h2, h3, h4, h5, Bool.false_eq_true, if_false]


theorem shine_pd {ds : List Char} {sfx : String} (hne : ds ≠ [])
    (hd : ∀ c ∈ ds, isDigitCh c = true) (hsne : sfx.data ≠ [])
    (hlast : ∀ c, sfx.data.getLast? = some c → isWsCh c = false)
    (htoks : ∀ t ∈ shineStripToks, ∃ c, c ∈ t ∧ isDigitCh c = false ∧ c ∉ sfx.data) :
    trimStr (String.mk (removeToks shineStripToks (trimStr (digitText ds sfx)).data))
      = digitText ds sfx := by
  rw [trimStr_digitText hne hd hsne hlast]
  have hrm : removeToks shineStripToks (ds ++ sfx.data) = ds ++ sfx.data := by
    apply removeToks_noop
    intro t ht
    obtain ⟨c, hct, hdig, hns⟩ := htoks t ht
    refine ⟨c, hct, fun hm => ?_⟩
    rcases List.mem_append.mp hm with hm | hm
    · rw [hd c hm] at hdig; cases hdig
    · exact hns hm
  show trimStr (String.mk (removeToks shineStripToks (ds ++ sfx.data))) = digitText ds sfx
  rw [hrm]
  exact trimStr_digitText hne hd hsne hlast

theorem findNumUnit_digitText_none {ds : List Char} {sfx unit : String}
    (hd : ∀ c ∈ ds, isDigitCh c = true) (c : Char) (hc : c ∈ unit.data)
    (hdig : isDigitCh c = false) (hns : c ∉ sfx.data) :
    findNumUnit (digitText ds sfx) unit = none := by
  apply findNumUnit_none_of_missing hc
  intro hm
  rcases List.mem_append.mp hm with hm | hm
  · rw [hd c hm] at hdig; cases hdig
  · exact hns hm

theorem normalizeShine_days (now : Int) {ds : List Char} (hne : ds ≠ [])
    (hd : ∀ c ∈ ds, isDigitCh c = true) :
    normalizeShineDate now (digitText ds " days")
      = .dateOnly (dayOf (now - (digitsToNat ds : Int) * 1440)) := by
  have hpd : trimStr (String.mk (removeToks shineStripToks (trimStr (digitText ds " days")).data)) = digitText ds " days" := shine_pd hne hd (by decide)
    (fun c hc => by rw [← Option.some.inj hc]; decide) (by decide)
  have hday : findNumUnit (digitText ds " days") "day" = some (digitsToNat ds) := by
    show scanNumUnit "day".data (ds ++ ' ' :: "days".data) = some (digitsToNat ds)
    exact scanNumUnit_canonical hne hd
      (fun c h => by rw [← Option.some.inj h]; decide) (by decide)
  simp only [normalizeShineDate, hpd, hday]

theorem normalizeShine_weeks (now : Int) {ds : List Char} (hne : ds ≠ [])
    (hd : ∀ c ∈ ds, isDigitCh c = true) :
    normalizeShineDate now (digitText ds " weeks")
      = .dateOnly (dayOf (now - (digitsToNat ds : Int) * 7 * 1440)) := by
  have hpd : trimStr (String.mk (removeToks shineStripToks (trimStr (digitText ds " weeks")).data)) = digitText ds " weeks" := shine_pd hne hd (by decide)
    (fun c hc => by rw [← Option.some.inj hc]; decide) (by decide)
  have h1 : findNumUnit (digitText ds " weeks") "day" = none :=
    findNumUnit_digitText_none hd 'd' (by decide) (by decide) (by decide)
  have hweek : findNumUnit (digitText ds " weeks") "week" = some (digitsToNat ds) := by
    show scanNumUnit "week".data (ds ++ ' ' :: "weeks".data) = some (digitsToNat ds)
    exact scanNumUnit_canonical hne hd
      (fun c h => by rw [← Option.some.inj h]; decide) (by decide)
  simp only [normalizeShineDate, hpd, h1, hweek]

theorem normalizeShine_hours (now : Int) {ds : List Char} (hne : ds ≠ [])
    (hd : ∀ c ∈ ds, isDigitCh c = true) :
    normalizeShineDate now (digitText ds " hours") = .dateOnly (dayOf now) := by
  have hpd : trimStr (String.mk (removeToks shineStripToks (trimStr (digitText ds " hours")).data)) = digitText ds " hours" := shine_pd hne hd (by decide)
    (fun c hc => by rw [← Option.some.inj hc]; decide) (by decide)
  have h1 : findNumUnit (digitText ds " hours") "day" = none :=
    findNumUnit_digitText_none hd 'd' (by decide) (by decide) (by decide)
  have h2 : findNumUnit (digitText ds " hours") "week" = none :=
    findNumUnit_digitText_none hd 'w' (by decide) (by decide) (by decide)
  have hhour : findNumUnit (digitText ds " hours") "hour" = some (digitsToNat ds) := by
    show scanNumUnit "hour".data (ds ++ ' ' :: "hours".data) = some (digitsToNat ds)
    exact scanNumUnit_canonical hne hd
      (fun c h => by rw [← Option.some.inj h]; decide) (by decide)
  simp only [normalizeShineDate, hpd, h1, h2, hhour, Option.isSome_some,
    Bool.true_or, if_true]

theorem normalizeShine_minutes (now : Int) {ds : List Char} (hne : ds ≠ [])
    (hd : ∀ c ∈ ds, isDigitCh c = true) :
    normalizeShineDate now (digitText ds " minutes") = .dateOnly (dayOf now) := by
  have hpd : trimStr (String.mk (removeToks shineStripToks (trimStr (digitText ds " minutes")).data)) = digitText ds " minutes" := shine_pd hne hd (by decide)
    (fun c hc => by rw [← Option.some.inj hc]; decide) (by decide)
  have h1 : findNumUnit (digitText ds " minutes") "day" = none :=
    findNumUnit_digitText_none hd 'd' (by decide) (by decide) (by decide)
  have h2 : findNumUnit (digitText ds " minutes") "week" = none :=
    findNumUnit_digitText_none hd 'w' (by decide) (by decide) (by decide)
  have h3 : findNumUnit (digitText ds " minutes") "hour" = none :=
    findNumUnit_digitText_none hd 'h' (by decide) (by decide) (by decide)
  have hmin : findNumUnit (digitText ds " minutes") "minute"
      = some (digitsToNat ds) := by
    show scanNumUnit "minute".data (ds ++ ' ' :: "minutes".data) = some (digitsToNat ds)
    exact scanNumUnit_canonical hne hd
      (fun c h => by rw [← Option.some.inj h]; decide) (by decide)
  simp only [normalizeShineDate, hpd, h1, h2, h3, hmin, Option.isSome_none,
    Option.isSome_some, Bool.false_or, if_true]

theorem normalizeShine_months (now : Int) {ds : List Char} (hne : ds ≠ [])
    (hd : ∀ c ∈ ds, isDigitCh c = true) :
    normalizeShineDate now (digitText ds " months")
      = .raw (digitText ds " months") := by
  have hpd : trimStr (String.mk (removeToks shineStripToks (trimStr (digitText ds " months")).data)) = digitText ds " months" := shine_pd hne hd (by decide)
    (fun c hc => by rw [← Option.some.inj hc]; decide) (by decide)
  have h1 : findNumUnit (digitText ds " months") "day" = none :=
    findNumUnit_digitText_none hd 'd' (by decide) (by decide) (by decide)
  have h2 : findNumUnit (digitText ds " months") "week" = none :=
    findNumUnit_digitText_none hd 'w' (by decide) (by decide) (by decide)
  have h3 : findNumUnit (digitText ds " months") "hour" = none :=
    findNumUnit_digitText_none hd 'u' (by decide) (by decide) (by decide)
  have h4 : findNumUnit (digitText ds " months") "minute" = none :=
    findNumUnit_digitText_none hd 'i' (by decide) (by decide) (by decide)
  simp only [normalizeShineDate, hpd, h1, h2, h3, h4, Option.isSome_none,
    Bool.or_self, Bool.false_eq_true, if_false]


/-! ## Claim theorems -/

/-- C1: persisting is idempotent on `link`.  For every batch run against a
store already holding a link, no new row with that link is created; and
persisting the same record (same link) twice leaves exactly one stored row
with that link, the first call reporting an insert (newJobs 1, duplicates 0)
and the second reporting it as a duplicate (newJobs 0, duplicates 1) with
the store unchanged. -/
theorem saveJobs_link_idempotent (nowStr : String) (store : List JobRow)
    (j : RawJobRecord) (store2 : List JobRow) (jobs2 : List RawJobRecord)
    (fs2 : List Bool) (hfresh : hasLink store j.link = false)
    (hpresent : hasLink store2 j.link = true) :
    countLink (saveJobs nowStr store2 jobs2 fs2 false).store j.link
      = countLink store2 j.link ∧
    saveJobs nowStr store [j] [false] false
      = ⟨store ++ [toRow nowStr j], 1, 0, true, false, false⟩ ∧
    countLink (store ++ [toRow nowStr j]) j.link = 1 ∧
    saveJobs nowStr (store ++ [toRow nowStr j]) [j] [false] false
      = ⟨store ++ [toRow nowStr j], 0, 1, true, false, false⟩ := by
  refine ⟨?_, ?_, ?_, ?_⟩
  · by_cases hlen : jobs2.length = 0
    · simp [saveJobs, hlen]
    · simp only [saveJobs, if_neg hlen, Bool.false_eq_true, if_false]
      exact runInserts_countLink nowStr jobs2 store2 fs2 hpresent
  · simp [saveJobs, runInserts_single_fresh nowStr hfresh]
  · rw [countLink_append, countLink_eq_zero_of_not hfresh]
    simp [toRow]
  · have hl := hasLink_append_self store (toRow nowStr j)
    simp [saveJobs, runInserts_single_dup nowStr hl]

/-- Witness for C1: a concrete fresh record against the empty store, and a
concrete batch against a store already holding the link. -/
theorem saveJobs_link_idempotent_witness :
    hasLink [] cJob.link = false ∧
    hasLink [toRow "T0" cJob] cJob.link = true ∧
    (countLink (saveJobs "T0" [toRow "T0" cJob] [cJob2] [false] false).store cJob.link
        = countLink [toRow "T0" cJob] cJob.link ∧
      saveJobs "T0" [] [cJob] [false] false
        = ⟨[] ++ [toRow "T0" cJob], 1, 0, true, false, false⟩ ∧
      countLink ([] ++ [toRow "T0" cJob]) cJob.link = 1 ∧
      saveJobs "T0" ([] ++ [toRow "T0" cJob]) [cJob] [false] false
        = ⟨[] ++ [toRow "T0" cJob], 0, 1, true, false, false⟩) :=
  ⟨by decide, by decide,
    saveJobs_link_idempotent "T0" [] cJob [toRow "T0" cJob] [cJob2] [false]
      (by decide) (by decide)⟩

/-- C2: the empty batch returns zero counts without touching storage, and a
crawl that extracts zero jobs answers 200 with totalJobs, newJobs and
duplicates all zero, leaving the store unchanged and raising nothing. -/
theorem saveJobs_empty_batch (nowStr : String) (store : List JobRow)
    (fails : List Bool) (hardError : Bool) (req : CrawlRequest)
    (f1 : Source1 → Except String (List RawJobRecord)) (s : Source1)
    (hrole : isFalsy req.role = false) (hloc : isFalsy req.location = false)
    (hsrc : parseSource1 (req.source.getD "naukri") = some s)
    (hcrawl : f1 s = .ok []) :
    saveJobs nowStr store [] fails hardError = ⟨store, 0, 0, false, false, false⟩ ∧
    apiCrawl1 req f1 nowStr store fails hardError
      = ⟨200, true, none, 0, 0, 0, true, store⟩ := by
  constructor
  · rfl
  · simp only [apiCrawl1, hrole, hloc, Bool.or_self, Bool.false_eq_true,
      if_false, hsrc, hcrawl]
    rfl

/-- Witness for C2 at a concrete valid request whose crawl finds nothing. -/
theorem saveJobs_empty_batch_witness :
    saveJobs "T0" [toRow "T0" cJob] [] [true] true
      = ⟨[toRow "T0" cJob], 0, 0, false, false, false⟩ ∧
    apiCrawl1 cReqValid cNoJobs1 "T0" [toRow "T0" cJob] [true] true
      = ⟨200, true, none, 0, 0, 0, true, [toRow "T0" cJob]⟩ :=
  saveJobs_empty_batch "T0" [toRow "T0" cJob] [true] true cReqValid cNoJobs1
    Source1.naukri (by decide) (by decide) (by decide) rfl

/-- C3 as stated is false at a one-record batch whose individual insert
fails for a non-conflict reason: the gate reports duplicates 1 although the
number of skipped link conflicts is 0. -/
theorem saveJobs_duplicates_count_cex :
    (saveJobs "T0" [] [cJob] [true] false).newJobs = 0 ∧
    (saveJobs "T0" [] [cJob] [true] false).duplicates = 1 ∧
    (runInserts "T0" [] [cJob] [true]).conflicted = 0 ∧
    (saveJobs "T0" [] [cJob] [true] false).duplicates
      ≠ (runInserts "T0" [] [cJob] [true]).conflicted := by
  refine ⟨rfl, rfl, rfl, ?_⟩
  decide

/-- C3 amended: for every non-empty batch the gate commits (no rollback),
individual failures are swallowed, newJobs is the number of individually
successful inserts, and duplicates is the batch length minus newJobs — that
is, skipped link conflicts PLUS swallowed individual failures, not
conflicts alone. -/
theorem saveJobs_counts_amended (nowStr : String) (store : List JobRow)
    (jobs : List RawJobRecord) (fails : List Bool) (hne : jobs ≠ []) :
    (saveJobs nowStr store jobs fails false).newJobs
      = (runInserts nowStr store jobs fails).inserted ∧
    (saveJobs nowStr store jobs fails false).duplicates
      = (runInserts nowStr store jobs fails).conflicted
        + (runInserts nowStr store jobs fails).failed ∧
    (saveJobs nowStr store jobs fails false).store
      = (runInserts nowStr store jobs fails).store ∧
    (saveJobs nowStr store jobs fails false).touched = true ∧
    (saveJobs nowStr store jobs fails false).rolledBack = false := by
  have hlen : jobs.length ≠ 0 := fun h => hne (List.length_eq_zero.mp h)
  have htot := runInserts_total nowStr jobs store fails
  have hle := runInserts_inserted_le nowStr jobs store fails
  refine ⟨?_, ?_, ?_, ?_, ?_⟩ <;>
    simp only [saveJobs, if_neg hlen, Bool.false_eq_true, if_false] <;>
    first
    | rfl
    | trivial
    | omega

/-- Witness for C3's amended statement: a two-record batch whose first
insert fails individually. -/
theorem saveJobs_counts_amended_witness :
    (saveJobs "T0" [] [cJob, cJob2] [true] false).newJobs
      = (runInserts "T0" [] [cJob, cJob2] [true]).inserted ∧
    (saveJobs "T0" [] [cJob, cJob2] [true] false).duplicates
      = (runInserts "T0" [] [cJob, cJob2] [true]).conflicted
        + (runInserts "T0" [] [cJob, cJob2] [true]).failed ∧
    (saveJobs "T0" [] [cJob, cJob2] [true] false).store
      = (runInserts "T0" [] [cJob, cJob2] [true]).store ∧
    (saveJobs "T0" [] [cJob, cJob2] [true] false).touched = true ∧
    (saveJobs "T0" [] [cJob, cJob2] [true] false).rolledBack = false :=
  saveJobs_counts_amended "T0" [] [cJob, cJob2] [true] (by decide)

/-- C4: a hard transaction error makes the gate roll back (store unchanged),
log, and report zero counts to its caller; the crawl route then still
answers 200 with newJobs 0 and duplicates 0 — no error is thrown to it. -/
theorem saveJobs_hard_error (nowStr : String) (store : List JobRow)
    (jobs : List RawJobRecord) (fails : List Bool) (req : CrawlRequest)
    (f1 : Source1 → Except String (List RawJobRecord)) (s : Source1)
    (hne : jobs ≠ [])
    (hrole : isFalsy req.role = false) (hloc : isFalsy req.location = false)
    (hsrc : parseSource1 (req.source.getD "naukri") = some s)
    (hcrawl : f1 s = .ok jobs) :
    saveJobs nowStr store jobs fails true = ⟨store, 0, 0, true, true, true⟩ ∧
    apiCrawl1 req f1 nowStr store fails true
      = ⟨200, true, none, jobs.length, 0, 0, true, store⟩ := by
  have hlen : jobs.length ≠ 0 := fun h => hne (List.length_eq_zero.mp h)
  have h1 : saveJobs nowStr store jobs fails true = ⟨store, 0, 0, true, true, true⟩ := by
    simp [saveJobs, hlen]
  refine ⟨h1, ?_⟩
  simp only [apiCrawl1, hrole, hloc, Bool.or_self, Bool.false_eq_true,
    if_false, hsrc, hcrawl, h1]

/-- Witness for C4 at a concrete one-record crawl hitting a hard error. -/
theorem saveJobs_hard_error_witness :
    saveJobs "T0" [toRow "T0" cJob2] [cJob] [] true
      = ⟨[toRow "T0" cJob2], 0, 0, true, true, true⟩ ∧
    apiCrawl1 cReqValid cOneJob1 "T0" [toRow "T0" cJob2] [] true
      = ⟨200, true, none, [cJob].length, 0, 0, true, [toRow "T0" cJob2]⟩ :=
  saveJobs_hard_error "T0" [toRow "T0" cJob2] [cJob] [] cReqValid cOneJob1
    Source1.naukri (by decide) (by decide) (by decide) (by decide) rfl

/-- C10: on the committed path the returned counts always satisfy
newJobs + duplicates = batch length and newJobs ≤ batch length, however the
individual inserts resolved. -/
theorem saveJobs_counts_invariant (nowStr : String) (store : List JobRow)
    (jobs : List RawJobRecord) (fails : List Bool) :
    (saveJobs nowStr store jobs fails false).newJobs
      + (saveJobs nowStr store jobs fails false).duplicates = jobs.length ∧
    (saveJobs nowStr store jobs fails false).newJobs ≤ jobs.length := by
  by_cases hlen : jobs.length = 0
  · simp [saveJobs, hlen]
  · have hle := runInserts_inserted_le nowStr jobs store fails
    simp only [saveJobs, if_neg hlen, Bool.false_eq_true, if_false]
    constructor
    · show (runInserts nowStr store jobs fails).inserted
        + (jobs.length - (runInserts nowStr store jobs fails).inserted)
        = jobs.length
      omega
    · exact hle


/-- C5 as stated is false for the Naukri extractor: with a throwing node
and a good sibling, the whole page evaluation fails instead of dropping the
failing node and keeping the sibling — while the LinkedIn extractor does
drop it. -/
theorem naukri_throwing_node_cex :
    naukriExtractJobs [cBadNaukriNode, cGoodNaukriNode] = .error () ∧
    naukriExtractJobs [cBadNaukriNode, cGoodNaukriNode]
      ≠ .ok [extractNaukriNode cGoodNaukriNode] ∧
    extractLinkedInJobs 0 [cBadLINode, cEmptyLINode]
      = [extractLINode 0 cEmptyLINode] := by
  refine ⟨rfl, ?_, rfl⟩
  intro h
  exact Except.noConfusion h

/-- C5 amended: in the LinkedIn and Shine extractors a throwing node is
dropped while every sibling is still extracted, and missing sub-fields
default to the sentinels "N/A" / "Not specified" / empty sequence / "#";
the Naukri extractor applies the same per-field sentinel defaults but has
no per-node catch, so its page extraction succeeds exactly when no node
throws, and one throwing node aborts the whole evaluation. -/
theorem extractors_drop_failures (now : Int) (liNodes : List LINode)
    (shNodes : List ShineNode) (nkNodes : List NaukriNode) (n : NaukriNode) :
    extractLinkedInJobs now liNodes
      = (liNodes.filter (fun m => !m.throws)).map (extractLINode now) ∧
    extractShineJobs now shNodes
      = (shNodes.filter (fun m => !m.throws)).map (extractShineNode now) ∧
    extractLINode now cEmptyLINode
      = ⟨"N/A", "N/A", "N/A", "N/A", [], "Not specified", "#", "LinkedIn",
          .raw "N/A", now⟩ ∧
    extractShineNode now cEmptyShineNode
      = ⟨"N/A", "N/A", "N/A", "N/A", "Not specified", "#", "Shine",
          .raw "N/A", now⟩ ∧
    extractNaukriNode ⟨false, none, none, none, none, [], none, none⟩
      = ⟨"N/A", "N/A", "N/A", "N/A", [], "#", "N/A"⟩ ∧
    ((∀ m ∈ nkNodes, m.throws = false) →
      naukriExtractJobs nkNodes = .ok (nkNodes.map extractNaukriNode)) ∧
    (n ∈ nkNodes → n.throws = true → naukriExtractJobs nkNodes = .error ()) :=
  ⟨extractLinkedInJobs_filter_map now liNodes,
   extractShineJobs_filter_map now shNodes,
   rfl, rfl, rfl,
   fun h => naukriExtractJobs_ok h,
   fun hm hth => naukriExtractJobs_error hth hm⟩

/-- C6 as stated is false for the Shine extraction: "3 hours" yields
today's date (no subtraction), not an instant 3 hours prior, and "2 months"
is not converted at all — while the LinkedIn extraction does subtract the
3 hours. -/
theorem shine_hours_not_subtracted_cex :
    normalizeShineDate 29000000 "3 hours" = DateVal.dateOnly (dayOf 29000000) ∧
    normalizeShineDate 29000000 "3 hours" ≠ DateVal.instant (29000000 - 3 * 60) ∧
    normalizeShineDate 29000000 "2 months" = DateVal.raw "2 months" ∧
    normalizeLinkedInDate 29000000 "3 hours"
      = DateVal.instant (29000000 - 3 * 60) := by
  refine ⟨?_, ?_, ?_, ?_⟩ <;> decide

/-- C6 amended: the LinkedIn normalization subtracts matched
{minute, hour, day, week, month} amounts from the evaluation instant
(sub-day granularity for hour/minute, day granularity for day/week/month)
and passes unrecognized text through trimmed; the Shine normalization
subtracts only day and week amounts at day granularity, maps hour or minute
matches to the current date with no subtraction, and does not recognize
month units, passing such text through. -/
theorem relative_date_normalization (now : Int) (ds : List Char)
    (hne : ds ≠ []) (hd : ∀ c ∈ ds, isDigitCh c = true)
    (hnz : digitsToNat ds ≠ 0) :
    normalizeLinkedInDate now (digitText ds " days ago")
      = .dateOnly (dayOf (now - (digitsToNat ds : Int) * 1440)) ∧
    normalizeLinkedInDate now (digitText ds " hours ago")
      = .instant (now - (digitsToNat ds : Int) * 60) ∧
    normalizeLinkedInDate now (digitText ds " weeks ago")
      = .dateOnly (dayOf (now - (digitsToNat ds : Int) * 7 * 1440)) ∧
    normalizeLinkedInDate now (digitText ds " months ago")
      = .dateOnly (dayOf (jsSubMonths now (digitsToNat ds : Int))) ∧
    normalizeLinkedInDate now (digitText ds " minutes ago")
      = .instant (now - (digitsToNat ds : Int)) ∧
    (∀ t : String,
      includesStr (lowerStr (trimStr t)) "hour" = false →
      includesStr (lowerStr (trimStr t)) "day" = false →
      includesStr (lowerStr (trimStr t)) "week" = false →
      includesStr (lowerStr (trimStr t)) "month" = false →
      includesStr (lowerStr (trimStr t)) "minute" = false →
      normalizeLinkedInDate now t = .raw (trimStr t)) ∧
    normalizeShineDate now (digitText ds " days")
      = .dateOnly (dayOf (now - (digitsToNat ds : Int) * 1440)) ∧
    normalizeShineDate now (digitText ds " weeks")
      = .dateOnly (dayOf (now - (digitsToNat ds : Int) * 7 * 1440)) ∧
    normalizeShineDate now (digitText ds " hours") = .dateOnly (dayOf now) ∧
    normalizeShineDate now (digitText ds " minutes") = .dateOnly (dayOf now) ∧
    normalizeShineDate now (digitText ds " months")
      = .raw (digitText ds " months") :=
  ⟨normalizeLinkedIn_days now hne hd hnz,
   normalizeLinkedIn_hours now hne hd hnz,
   normalizeLinkedIn_weeks now hne hd hnz,
   normalizeLinkedIn_months now hne hd hnz,
   normalizeLinkedIn_minutes now hne hd hnz,
   fun t h1 h2 h3 h4 h5 => normalizeLinkedIn_raw now t h1 h2 h3 h4 h5,
   normalizeShine_days now hne hd,
   normalizeShine_weeks now hne hd,
   normalizeShine_hours now hne hd,
   normalizeShine_minutes now hne hd,
   normalizeShine_months now hne hd⟩

/-- Witness for C6's amended statement with the two-digit-free amount 2 and
a concrete evaluation instant. -/
theorem relative_date_normalization_witness :
    normalizeLinkedInDate 29000000 (digitText ['2'] " days ago")
      = .dateOnly (dayOf (29000000 - (digitsToNat ['2'] : Int) * 1440)) ∧
    normalizeLinkedInDate 29000000 (digitText ['2'] " hours ago")
      = .instant (29000000 - (digitsToNat ['2'] : Int) * 60) ∧
    normalizeLinkedInDate 29000000 (digitText ['2'] " weeks ago")
      = .dateOnly (dayOf (29000000 - (digitsToNat ['2'] : Int) * 7 * 1440)) ∧
    normalizeLinkedInDate 29000000 (digitText ['2'] " months ago")
      = .dateOnly (dayOf (jsSubMonths 29000000 (digitsToNat ['2'] : Int))) ∧
    normalizeLinkedInDate 29000000 (digitText ['2'] " minutes ago")
      = .instant (29000000 - (digitsToNat ['2'] : Int)) ∧
    (∀ t : String,
      includesStr (lowerStr (trimStr t)) "hour" = false →
      includesStr (lowerStr (trimStr t)) "day" = false →
      includesStr (lowerStr (trimStr t)) "week" = false →
      includesStr (lowerStr (trimStr t)) "month" = false →
      includesStr (lowerStr (trimStr t)) "minute" = false →
      normalizeLinkedInDate 29000000 t = .raw (trimStr t)) ∧
    normalizeShineDate 29000000 (digitText ['2'] " days")
      = .dateOnly (dayOf (29000000 - (digitsToNat ['2'] : Int) * 1440)) ∧
    normalizeShineDate 29000000 (digitText ['2'] " weeks")
      = .dateOnly (dayOf (29000000 - (digitsToNat ['2'] : Int) * 7 * 1440)) ∧
    normalizeShineDate 29000000 (digitText ['2'] " hours")
      = .dateOnly (dayOf 29000000) ∧
    normalizeShineDate 29000000 (digitText ['2'] " minutes")
      = .dateOnly (dayOf 29000000) ∧
    normalizeShineDate 29000000 (digitText ['2'] " months")
      = .raw (digitText ['2'] " months") :=
  relative_date_normalization 29000000 ['2'] (by decide) (by decide) (by decide)

/-- C7: POST /api/crawl answers 400 without starting a crawl or touching
the store both when role or location is missing and when the source value
is unsupported, and the invalid-source message enumerates every supported
source of the answering server variant. -/
theorem apiCrawl_validation (req : CrawlRequest)
    (f1 : Source1 → Except String (List RawJobRecord))
    (f2 : Source2 → Except String (List RawJobRecord))
    (nowStr : String) (store : List JobRow) (fails : List Bool)
    (hardError : Bool) :
    ((isFalsy req.role || isFalsy req.location) = true →
      apiCrawl1 req f1 nowStr store fails hardError
        = ⟨400, false, some "Role and location are required", 0, 0, 0, false, store⟩ ∧
      apiCrawl2 req f2 nowStr store fails hardError
        = ⟨400, false, some "Role and location are required", 0, 0, 0, false, store⟩) ∧
    (isFalsy req.role = false → isFalsy req.location = false →
      parseSource1 (req.source.getD "naukri") = none →
      apiCrawl1 req f1 nowStr store fails hardError
        = ⟨400, false, some invalidSourceMsg1, 0, 0, 0, false, store⟩) ∧
    (isFalsy req.role = false → isFalsy req.location = false →
      parseSource2 (req.source.getD "naukri") = none →
      apiCrawl2 req f2 nowStr store fails hardError
        = ⟨400, false, some invalidSourceMsg2, 0, 0, 0, false, store⟩) ∧
    (includesStr invalidSourceMsg1 "naukri" = true ∧
     includesStr invalidSourceMsg1 "shine" = true ∧
     includesStr invalidSourceMsg1 "hirist" = true ∧
     includesStr invalidSourceMsg1 "linkedin" = true) ∧
    (includesStr invalidSourceMsg2 "naukri" = true ∧
     includesStr invalidSourceMsg2 "shine" = true ∧
     includesStr invalidSourceMsg2 "hirist" = true) := by
  refine ⟨?_, ?_, ?_, by decide, by decide⟩
  · intro h
    constructor
    · simp [apiCrawl1, h]
    · simp [apiCrawl2, h]
  · intro h1 h2 h3
    simp [apiCrawl1, h1, h2, h3]
  · intro h1 h2 h3
    simp [apiCrawl2, h1, h2, h3]

/-- Witness for C7: a request missing its location, one naming the
unsupported source "monster" against both server variants, and one naming
"linkedin" against the second variant (which does not support it). -/
theorem apiCrawl_validation_witness :
    (apiCrawl1 cReqMissing cNoJobs1 "T0" [] [] false
      = ⟨400, false, some "Role and location are required", 0, 0, 0, false, []⟩) ∧
    (apiCrawl1 cReqBadSource cNoJobs1 "T0" [] [] false
      = ⟨400, false, some invalidSourceMsg1, 0, 0, 0, false, []⟩) ∧
    (apiCrawl2 cReqBadSource cNoJobs2 "T0" [] [] false
      = ⟨400, false, some invalidSourceMsg2, 0, 0, 0, false, []⟩) ∧
    (apiCrawl2 cReqLinkedIn cNoJobs2 "T0" [] [] false
      = ⟨400, false, some invalidSourceMsg2, 0, 0, 0, false, []⟩) :=
  ⟨((apiCrawl_validation cReqMissing cNoJobs1 cNoJobs2 "T0" [] [] false).1
      (by decide)).1,
   (apiCrawl_validation cReqBadSource cNoJobs1 cNoJobs2 "T0" [] [] false).2.1
      (by decide) (by decide) (by decide),
   (apiCrawl_validation cReqBadSource cNoJobs1 cNoJobs2 "T0" [] [] false).2.2.1
      (by decide) (by decide) (by decide),
   (apiCrawl_validation cReqLinkedIn cNoJobs1 cNoJobs2 "T0" [] [] false).2.2.1
      (by decide) (by decide) (by decide)⟩


theorem alertSel_all (store : List JobRow) (cutoff : String) (roleStr : String)
    (location source : Option String) :
    ∀ r ∈ List.take 10 (List.insertionSort jobDesc
        (store.filter (alertMatches cutoff roleStr location source))),
      r ∈ store ∧ alertMatches cutoff roleStr location source r = true := by
  intro r hr
  have h1 : r ∈ List.insertionSort jobDesc
      (store.filter (alertMatches cutoff roleStr location source)) :=
    (List.take_sublist _ _).subset hr
  have h2 := (List.perm_insertionSort jobDesc
    (store.filter (alertMatches cutoff roleStr location source))).mem_iff.mp h1
  exact List.mem_filter.mp h2

/-- C8: /api/jobs filters are case-insensitive substring matches combined
conjunctively; every returned row comes from the store and satisfies the
predicate, the rows are ordered by posted_date descending, total is counted
over the same predicate, and on the two-row example store an "engineer"
role filter in any letter case returns both rows while "backend" returns
only the Backend Engineer row. -/
theorem apiJobs_query (store : List JobRow) (role location source : Option String)
    (page limit : Nat) (q : String) (hq : lowerStr q = "engineer") :
    (apiJobs store role location source page limit).jobs.all
        (fun r => matchesJobFilters role location source r
          && decide (r ∈ store)) = true ∧
    chainDesc (apiJobs store role location source page limit).jobs = true ∧
    (apiJobs store role location source page limit).total
      = (store.filter (matchesJobFilters role location source)).length ∧
    (apiJobs store role location source page limit).count
      = (apiJobs store role location source page limit).jobs.length ∧
    (apiJobs cExampleStore (some q) none none 1 20).jobs
      = [cBackendRow, cFrontendRow] ∧
    (apiJobs cExampleStore (some "backend") none none 1 20).jobs
      = [cBackendRow] := by
  have hsorted : List.Sorted jobDesc (List.insertionSort jobDesc
      (store.filter (matchesJobFilters role location source))) :=
    List.sorted_insertionSort jobDesc _
  have hperm := List.perm_insertionSort jobDesc
    (store.filter (matchesJobFilters role location source))
  have hsub : (((List.insertionSort jobDesc
        (store.filter (matchesJobFilters role location source))).drop
          ((page - 1) * limit)).take limit).Sublist
      (List.insertionSort jobDesc
        (store.filter (matchesJobFilters role location source))) :=
    (List.take_sublist _ _).trans (List.drop_sublist _ _)
  refine ⟨?_, ?_, rfl, rfl, ?_, ?_⟩
  · rw [List.all_eq_true]
    intro r hr
    have hr2 : r ∈ store.filter (matchesJobFilters role location source) :=
      hperm.mem_iff.mp (hsub.subset hr)
    obtain ⟨hmem, hpred⟩ := List.mem_filter.mp hr2
    rw [Bool.and_eq_true, decide_eq_true_eq]
    exact ⟨hpred, hmem⟩
  · exact chainDesc_of_sorted (List.Pairwise.sublist hsub hsorted)
  · have hqne : q ≠ "" := fun h => by
      rw [h] at hq
      exact absurd hq (by decide)
    have hfa : filterActive (some q) = some q := by simp [filterActive, hqne]
    have hb : matchesJobFilters (some q) none none cBackendRow = true := by
      simp only [matchesJobFilters, hfa, containsCI, hq]
      decide
    have hf : matchesJobFilters (some q) none none cFrontendRow = true := by
      simp only [matchesJobFilters, hfa, containsCI, hq]
      decide
    have hfil : cExampleStore.filter (matchesJobFilters (some q) none none)
        = [cFrontendRow, cBackendRow] := by
      simp [cExampleStore, List.filter, hb, hf]
    show ((List.insertionSort jobDesc
        (cExampleStore.filter (matchesJobFilters (some q) none none))).drop
          ((1 - 1) * 20)).take 20 = [cBackendRow, cFrontendRow]
    rw [hfil]
    decide
  · decide

/-- Witness for C8 with the upper-case role filter "ENGINEER". -/
theorem apiJobs_query_witness :
    (apiJobs cExampleStore (some "ENGINEER") none none 1 20).jobs.all
        (fun r => matchesJobFilters (some "ENGINEER") none none r
          && decide (r ∈ cExampleStore)) = true ∧
    chainDesc (apiJobs cExampleStore (some "ENGINEER") none none 1 20).jobs = true ∧
    (apiJobs cExampleStore (some "ENGINEER") none none 1 20).total
      = (cExampleStore.filter (matchesJobFilters (some "ENGINEER") none none)).length ∧
    (apiJobs cExampleStore (some "ENGINEER") none none 1 20).count
      = (apiJobs cExampleStore (some "ENGINEER") none none 1 20).jobs.length ∧
    (apiJobs cExampleStore (some "ENGINEER") none none 1 20).jobs
      = [cBackendRow, cFrontendRow] ∧
    (apiJobs cExampleStore (some "backend") none none 1 20).jobs
      = [cBackendRow] :=
  apiJobs_query cExampleStore (some "ENGINEER") none none 1 20 "ENGINEER"
    (by decide)

/-- C9: /api/alert selects at most 10 stored postings, each drawn from the
store and matching the role substring, the optional filters and the
24-hour recency cutoff; when zero postings match it answers sent 0 with no
delivery attempt. -/
theorem apiAlert_selection (store : List JobRow) (cutoff : String)
    (email role location source : Option String) (emailOk : Bool)
    (hemail : isFalsy email = false) (hrole : isFalsy role = false) :
    (apiAlert store cutoff email role location source emailOk).sent ≤ 10 ∧
    (apiAlert store cutoff email role location source emailOk).selected.length
      ≤ 10 ∧
    (apiAlert store cutoff email role location source emailOk).selected.all
      (fun r => decide (r ∈ store)
        && alertMatches cutoff (role.getD "") location source r
        && strLe cutoff r.posted_date
        && containsCI r.title (role.getD "")) = true ∧
    ((∀ r ∈ store,
        alertMatches cutoff (role.getD "") location source r = false) →
      (apiAlert store cutoff email role location source emailOk).sent = 0 ∧
      (apiAlert store cutoff email role location source emailOk).deliveryAttempted
        = false ∧
      (apiAlert store cutoff email role location source emailOk).selected = []) := by
  have hv : (isFalsy email || isFalsy role) = false := by
    rw [hemail, hrole]
    rfl
  have hlen : (List.take 10 (List.insertionSort jobDesc
      (store.filter (alertMatches cutoff (role.getD "") location source)))).length
      ≤ 10 := by
    rw [List.length_take]
    exact min_le_left _ _
  have hallb : (List.take 10 (List.insertionSort jobDesc
      (store.filter (alertMatches cutoff (role.getD "") location source)))).all
      (fun r => decide (r ∈ store)
        && alertMatches cutoff (role.getD "") location source r
        && strLe cutoff r.posted_date
        && containsCI r.title (role.getD "")) = true := by
    rw [List.all_eq_true]
    intro r hr
    obtain ⟨hmem, hpred⟩ := alertSel_all store cutoff (role.getD "") location source r hr
    have hparts := hpred
    simp only [alertMatches, Bool.and_eq_true] at hparts
    simp only [Bool.and_eq_true, decide_eq_true_eq]
    exact ⟨⟨⟨hmem, hpred⟩, hparts.1.1.1⟩, hparts.1.1.2⟩
  simp only [apiAlert, hv, Bool.false_eq_true, if_false]
  by_cases h0 : (List.take 10 (List.insertionSort jobDesc
      (store.filter (alertMatches cutoff (role.getD "") location source)))).length = 0
  · rw [if_pos h0]
    exact ⟨by decide, by decide, rfl, fun _ => ⟨rfl, rfl, rfl⟩⟩
  · rw [if_neg h0]
    have himp : (∀ r ∈ store,
        alertMatches cutoff (role.getD "") location source r = false) → False := by
      intro h
      apply h0
      have hfil : store.filter (alertMatches cutoff (role.getD "") location source)
          = [] := by
        rw [List.filter_eq_nil_iff]
        intro a ha
        rw [h a ha]
        exact Bool.false_ne_true
      rw [hfil]
      rfl
    by_cases hok : emailOk
    · rw [if_pos hok]
      exact ⟨hlen, hlen, hallb, fun h => absurd h (fun hh => himp hh)⟩
    · rw [if_neg hok]
      exact ⟨Nat.zero_le 10, hlen, hallb, fun h => absurd h (fun hh => himp hh)⟩

/-- Witness for C9: an empty store, so zero postings match and the route
answers sent 0 without a delivery attempt. -/
theorem apiAlert_selection_witness :
    (apiAlert [] "2025-10-01" (some "a@b.c") (some "engineer") none none true).sent
      ≤ 10 ∧
    (apiAlert [] "2025-10-01" (some "a@b.c") (some "engineer") none none
      true).selected.length ≤ 10 ∧
    (apiAlert [] "2025-10-01" (some "a@b.c") (some "engineer") none none
      true).selected.all
      (fun r => decide (r ∈ ([] : List JobRow))
        && alertMatches "2025-10-01" ((some "engineer").getD "") none none r
        && strLe "2025-10-01" r.posted_date
        && containsCI r.title ((some "engineer").getD "")) = true ∧
    ((∀ r ∈ ([] : List JobRow),
        alertMatches "2025-10-01" ((some "engineer").getD "") none none r
          = false) →
      (apiAlert [] "2025-10-01" (some "a@b.c") (some "engineer") none none
        true).sent = 0 ∧
      (apiAlert [] "2025-10-01" (some "a@b.c") (some "engineer") none none
        true).deliveryAttempted = false ∧
      (apiAlert [] "2025-10-01" (some "a@b.c") (some "engineer") none none
        true).selected = []) :=
  apiAlert_selection [] "2025-10-01" (some "a@b.c") (some "engineer") none none
    true (by decide) (by decide)

end HrCrawler
